import Mathlib

/-!
Shallow embedding of the maze-graph backings of this repository:
`EdgeListGraph` (src/maze/edgeListGraph.py) and `IncMatGraph`
(src/maze/incidenceMatGraph.py).  Both represent an undirected graph whose
edges carry a boolean wall flag.  Python lists become Lean lists, the Python
vertex set of the edge-list backing becomes a duplicate-free list, and the
Python dict mapping vertices to row indices becomes an association list.
-/

set_option autoImplicit false

/-- The maze-cell label type (src/maze/util.py): an equality-comparable
2D coordinate. Only value equality is used by the graph code. -/
structure Coordinates where
  row : Int
  col : Int
deriving DecidableEq, Inhabited, Repr

/-- An edge record as stored by both backings: two endpoints and a wall flag. -/
abbrev Edge := Coordinates × Coordinates × Bool

/-- The symmetric edge-matching test used by every lookup in both backings:
`(v1 == vert1 and v2 == vert2) or (v1 == vert2 and v2 == vert1)`. -/
def edgeMatch (a b v1 v2 : Coordinates) : Bool :=
  decide ((a = v1 ∧ b = v2) ∨ (a = v2 ∧ b = v1))

/-- `hasEdge` shared by both backings: linear scan with the symmetric match. -/
def hasEdgeList (es : List Edge) (vert1 vert2 : Coordinates) : Bool :=
  es.any (fun e => edgeMatch e.1 e.2.1 vert1 vert2)

/-- `getWallStatus` shared by both backings: wall flag of the first matching
edge, `false` when no edge matches. -/
def getWallStatusList (es : List Edge) (vert1 vert2 : Coordinates) : Bool :=
  match es with
  | [] => false
  | (v1, v2, w) :: rest =>
    if edgeMatch v1 v2 vert1 vert2 then w else getWallStatusList rest vert1 vert2

/-- The `updateWall` loop shared by both backings: replace the wall flag of
the first matching edge (keeping its stored endpoint order); `none` when no
edge matches. -/
def updateWallList (es : List Edge) (vert1 vert2 : Coordinates) (wallStatus : Bool) :
    Option (List Edge) :=
  match es with
  | [] => none
  | (v1, v2, w) :: rest =>
    if edgeMatch v1 v2 vert1 vert2 then some ((v1, v2, wallStatus) :: rest)
    else (updateWallList rest vert1 vert2 wallStatus).map (fun es2 => (v1, v2, w) :: es2)

/-- Position of the first edge matching the unordered pair, as found by the
`removeEdge` loops of both backings. -/
def findEdgeIdx (es : List Edge) (vert1 vert2 : Coordinates) : Option Nat :=
  match es with
  | [] => none
  | (v1, v2, _) :: rest =>
    if edgeMatch v1 v2 vert1 vert2 then some 0
    else (findEdgeIdx rest vert1 vert2).map Nat.succ

/-- The `neighbours` loop of `EdgeListGraph`: for each edge, if the first
endpoint is the queried label append the second, else if the second endpoint
is the label append the first. -/
def neighboursList (es : List Edge) (label : Coordinates) : List Coordinates :=
  match es with
  | [] => []
  | (v1, v2, _) :: rest =>
    if v1 = label then v2 :: neighboursList rest label
    else if v2 = label then v1 :: neighboursList rest label
    else neighboursList rest label

/-! ### The edge-list backing (src/maze/edgeListGraph.py) -/

structure EdgeListGraph where
  edges : List Edge
  vertices : List Coordinates
deriving DecidableEq, Repr

namespace EdgeListGraph

/-- Fresh graph created by `__init__`. -/
def init : EdgeListGraph := { edges := [], vertices := [] }

def hasVertex (g : EdgeListGraph) (label : Coordinates) : Bool :=
  decide (label ∈ g.vertices)

/-- `set.add`: inserts the label when absent, no-op when present. -/
def addVertex (g : EdgeListGraph) (label : Coordinates) : EdgeListGraph :=
  if label ∈ g.vertices then g else { g with vertices := g.vertices ++ [label] }

def hasEdge (g : EdgeListGraph) (vert1 vert2 : Coordinates) : Bool :=
  hasEdgeList g.edges vert1 vert2

def addEdge (g : EdgeListGraph) (vert1 vert2 : Coordinates) (addWall : Bool := false) :
    EdgeListGraph × Bool :=
  if !g.hasVertex vert1 || !g.hasVertex vert2 then (g, false)
  else if !g.hasEdge vert1 vert2 then
    ({ g with edges := g.edges ++ [(vert1, vert2, addWall)] }, true)
  else (g, false)

def updateWall (g : EdgeListGraph) (vert1 vert2 : Coordinates) (wallStatus : Bool) :
    EdgeListGraph × Bool :=
  match updateWallList g.edges vert1 vert2 wallStatus with
  | some es => ({ g with edges := es }, true)
  | none => (g, false)

def removeEdge (g : EdgeListGraph) (vert1 vert2 : Coordinates) : EdgeListGraph × Bool :=
  match findEdgeIdx g.edges vert1 vert2 with
  | some i => ({ g with edges := g.edges.eraseIdx i }, true)
  | none => (g, false)

def getWallStatus (g : EdgeListGraph) (vert1 vert2 : Coordinates) : Bool :=
  getWallStatusList g.edges vert1 vert2

def neighbours (g : EdgeListGraph) (label : Coordinates) : List Coordinates :=
  neighboursList g.edges label

end EdgeListGraph

/-! ### The incidence-matrix backing (src/maze/incidenceMatGraph.py) -/

structure IncMatGraph where
  /-- The Python dict from vertex to its row index, as an association list
  in insertion order. -/
  vertices : List (Coordinates × Nat)
  edges : List Edge
  incidence_mat : List (List Nat)
deriving DecidableEq, Repr

/-- Dict lookup `self.vertices[label]` (first — and only — binding wins). -/
def lookupVertex (vs : List (Coordinates × Nat)) (label : Coordinates) : Option Nat :=
  match vs with
  | [] => none
  | (k, i) :: rest => if k = label then some i else lookupVertex rest label

/-- `row[c] = v` on one row of the matrix (in-range by the callers' checks). -/
def setMatCell (mat : List (List Nat)) (r c : Nat) (v : Nat) : List (List Nat) :=
  mat.set r ((mat.getD r []).set c v)

namespace IncMatGraph

/-- Fresh graph created by `__init__`. -/
def init : IncMatGraph := { vertices := [], edges := [], incidence_mat := [] }

def hasVertex (g : IncMatGraph) (label : Coordinates) : Bool :=
  (lookupVertex g.vertices label).isSome

/-- Adds a vertex with the next row index and a zero row of the current
edge count; no-op when the vertex already exists. -/
def addVertex (g : IncMatGraph) (label : Coordinates) : IncMatGraph :=
  if g.hasVertex label then g
  else { g with
         vertices := g.vertices ++ [(label, g.vertices.length)],
         incidence_mat := g.incidence_mat ++ [List.replicate g.edges.length 0] }

def hasEdge (g : IncMatGraph) (vert1 vert2 : Coordinates) : Bool :=
  hasEdgeList g.edges vert1 vert2

/-- Appends the edge, appends a zero column to every row, then sets the two
endpoint cells of the new column to 1. -/
def addEdge (g : IncMatGraph) (vert1 vert2 : Coordinates) (addWall : Bool := false) :
    IncMatGraph × Bool :=
  match lookupVertex g.vertices vert1, lookupVertex g.vertices vert2 with
  | some i1, some i2 =>
    if g.hasEdge vert1 vert2 then (g, false)
    else
      let index := g.edges.length
      let mat1 := g.incidence_mat.map (fun r => r ++ [0])
      let mat2 := setMatCell mat1 i1 index 1
      let mat3 := setMatCell mat2 i2 index 1
      ({ g with edges := g.edges ++ [(vert1, vert2, addWall)], incidence_mat := mat3 }, true)
  | _, _ => (g, false)

def updateWall (g : IncMatGraph) (vert1 vert2 : Coordinates) (wallStatus : Bool) :
    IncMatGraph × Bool :=
  match updateWallList g.edges vert1 vert2 wallStatus with
  | some es => ({ g with edges := es }, true)
  | none => (g, false)

/-- Pops the matching edge and pops the same column from every row. -/
def removeEdge (g : IncMatGraph) (vert1 vert2 : Coordinates) : IncMatGraph × Bool :=
  match findEdgeIdx g.edges vert1 vert2 with
  | some i =>
    ({ g with
       edges := g.edges.eraseIdx i,
       incidence_mat := g.incidence_mat.map (fun r => r.eraseIdx i) }, true)
  | none => (g, false)

def getWallStatus (g : IncMatGraph) (vert1 vert2 : Coordinates) : Bool :=
  getWallStatusList g.edges vert1 vert2

/-- Matrix-driven neighbour scan: walks the edge list together with the
queried vertex's matrix row, collecting the other endpoint wherever the row
cell is 1. -/
def neighboursScan (es : List Edge) (rowCells : List Nat) (label : Coordinates) :
    List Coordinates :=
  match es, rowCells with
  | (v1, v2, _) :: rest, c :: cs =>
    if c = 1 then
      (if v1 = label then v2 else v1) :: neighboursScan rest cs label
    else neighboursScan rest cs label
  | _, _ => []

def neighbours (g : IncMatGraph) (label : Coordinates) : List Coordinates :=
  match lookupVertex g.vertices label with
  | some index => neighboursScan g.edges (g.incidence_mat.getD index []) label
  | none => []

end IncMatGraph

/-! ### Operation sequences applied to both backings -/

/-- One mutating call of the common graph contract. -/
inductive Op where
  | addVertex (v : Coordinates)
  | addEdge (v1 v2 : Coordinates) (w : Bool)
  | updateWall (v1 v2 : Coordinates) (s : Bool)
  | removeEdge (v1 v2 : Coordinates)
deriving DecidableEq, Repr

def EdgeListGraph.applyOp (g : EdgeListGraph) : Op → EdgeListGraph
  | .addVertex v => g.addVertex v
  | .addEdge v1 v2 w => (g.addEdge v1 v2 w).1
  | .updateWall v1 v2 s => (g.updateWall v1 v2 s).1
  | .removeEdge v1 v2 => (g.removeEdge v1 v2).1

def EdgeListGraph.applyOps (g : EdgeListGraph) (ops : List Op) : EdgeListGraph :=
  ops.foldl EdgeListGraph.applyOp g

def IncMatGraph.applyOp (g : IncMatGraph) : Op → IncMatGraph
  | .addVertex v => g.addVertex v
  | .addEdge v1 v2 w => (g.addEdge v1 v2 w).1
  | .updateWall v1 v2 s => (g.updateWall v1 v2 s).1
  | .removeEdge v1 v2 => (g.removeEdge v1 v2).1

def IncMatGraph.applyOps (g : IncMatGraph) (ops : List Op) : IncMatGraph :=
  ops.foldl IncMatGraph.applyOp g

/-- The vertex labels of the incidence-matrix backing, in insertion order. -/
def IncMatGraph.keys (g : IncMatGraph) : List Coordinates :=
  g.vertices.map Prod.fst

/-! ### Invariants and auxiliary notions used by the verification -/

/-- Two edge records denote the same unordered endpoint pair. -/
def sameEnds (e e' : Edge) : Bool :=
  edgeMatch e.1 e.2.1 e'.1 e'.2.1

/-- No two stored edges denote the same unordered pair (no multi-edges). -/
def edgesDistinct (es : List Edge) : Prop :=
  es.Pairwise (fun e e' => sameEnds e e' = false)

/-- Well-formedness of an edge-list graph state: endpoints of stored edges
are stored vertices, and no two edges share their unordered pair. -/
structure ElWF (g : EdgeListGraph) : Prop where
  ends : ∀ e ∈ g.edges, e.1 ∈ g.vertices ∧ e.2.1 ∈ g.vertices
  distinct : edgesDistinct g.edges

/-- Pair each label with consecutive indices starting at `s`. -/
def withIndices : List Coordinates → Nat → List (Coordinates × Nat)
  | [], _ => []
  | k :: ks, s => (k, s) :: withIndices ks (s + 1)

/-- Position of the first occurrence of a label in a key list. -/
def keyIdx : List Coordinates → Coordinates → Option Nat
  | [], _ => none
  | k :: ks, label => if k = label then some 0 else (keyIdx ks label).map Nat.succ

/-- Well-formedness of an incidence-matrix graph state. -/
structure IncWF (g : IncMatGraph) : Prop where
  shape : g.vertices = withIndices g.keys 0
  nodup : g.keys.Nodup
  rows : g.incidence_mat.length = g.keys.length
  rowLen : ∀ row ∈ g.incidence_mat, row.length = g.edges.length
  cell : ∀ r, r < g.keys.length → ∀ i, i < g.edges.length →
    (g.incidence_mat.getD r []).getD i 0 =
      (if (g.edges.getD i default).1 = g.keys.getD r default ∨
          (g.edges.getD i default).2.1 = g.keys.getD r default then 1 else 0)
  ends : ∀ e ∈ g.edges, e.1 ∈ g.keys ∧ e.2.1 ∈ g.keys
  distinct : edgesDistinct g.edges

/-- Column `i` of the incidence matrix, read top to bottom. -/
def matColumn (mat : List (List Nat)) (i : Nat) : List Nat :=
  mat.map (fun row => row.getD i 0)

/-- Correspondence between the two backings: identical edge records and
identical vertex collections (in insertion order). -/
def Corr (a : EdgeListGraph) (b : IncMatGraph) : Prop :=
  a.edges = b.edges ∧ a.vertices = b.keys

/-- Sample coordinates used by concrete instantiations (spec section 8 scenario). -/
def cA : Coordinates := ⟨0, 0⟩

/-- Second sample coordinate. -/
def cB : Coordinates := ⟨0, 1⟩

/-- Third sample coordinate. -/
def cC : Coordinates := ⟨1, 0⟩

/-- The call sequence of the spec section 8 scenario. -/
def sampleOps : List Op :=
  [Op.addVertex cA, Op.addVertex cB, Op.addVertex cC,
   Op.addEdge cA cB true, Op.addEdge cA cC false]

/-! ### Generic list lemmas -/

section ListLemmas

variable {α : Type} (d : α)

theorem getD_append_lt (l1 l2 : List α) (i : Nat) (h : i < l1.length) :
    (l1 ++ l2).getD i d = l1.getD i d := by
  induction l1 generalizing i with
  | nil => simp at h
  | cons x xs ih =>
    cases i with
    | zero => rfl
    | succ j => exact ih j (Nat.lt_of_succ_lt_succ h)

theorem getD_append_ge (l1 l2 : List α) (i : Nat) (h : l1.length ≤ i) :
    (l1 ++ l2).getD i d = l2.getD (i - l1.length) d := by
  induction l1 generalizing i with
  | nil => simp
  | cons x xs ih =>
    cases i with
    | zero => simp at h
    | succ j =>
      simpa using ih j (Nat.le_of_succ_le_succ h)

theorem getD_eraseIdx (l : List α) (i j : Nat) :
    (l.eraseIdx i).getD j d = if j < i then l.getD j d else l.getD (j + 1) d := by
  induction l generalizing i j with
  | nil => simp [List.eraseIdx]
  | cons x xs ih =>
    cases i with
    | zero =>
      simp [List.eraseIdx]
    | succ n =>
      cases j with
      | zero => simp [List.eraseIdx]
      | succ m =>
        simp only [List.eraseIdx, List.getD_cons_succ, ih, Nat.succ_lt_succ_iff]

theorem eraseIdx_len (l : List α) (i : Nat) (h : i < l.length) :
    (l.eraseIdx i).length + 1 = l.length := by
  induction l generalizing i with
  | nil => simp at h
  | cons x xs ih =>
    cases i with
    | zero => rfl
    | succ n =>
      simp only [List.eraseIdx, List.length_cons]
      rw [ih n (Nat.lt_of_succ_lt_succ h)]

theorem getD_mem (l : List α) (i : Nat) (h : i < l.length) : l.getD i d ∈ l := by
  induction l generalizing i with
  | nil => simp at h
  | cons x xs ih =>
    cases i with
    | zero => exact List.mem_cons_self x xs
    | succ j => exact List.mem_cons_of_mem x (ih j (Nat.lt_of_succ_lt_succ h))

theorem getD_map_lt {β : Type} (d' : β) (f : α → β) (l : List α) (i : Nat)
    (h : i < l.length) : (l.map f).getD i d' = f (l.getD i d) := by
  induction l generalizing i with
  | nil => simp at h
  | cons x xs ih =>
    cases i with
    | zero => rfl
    | succ j => exact ih j (Nat.lt_of_succ_lt_succ h)

theorem getD_set_ne (l : List α) (i r : Nat) (a : α) (h : r ≠ i) :
    (l.set i a).getD r d = l.getD r d := by
  induction l generalizing i r with
  | nil => simp [List.set]
  | cons x xs ih =>
    cases i with
    | zero =>
      cases r with
      | zero => exact absurd rfl h
      | succ m => rfl
    | succ n =>
      cases r with
      | zero => rfl
      | succ m => exact ih n m (fun he => h (congrArg Nat.succ he))

theorem getD_set_self (l : List α) (i : Nat) (a : α) (h : i < l.length) :
    (l.set i a).getD i d = a := by
  induction l generalizing i with
  | nil => simp at h
  | cons x xs ih =>
    cases i with
    | zero => rfl
    | succ n => exact ih n (Nat.lt_of_succ_lt_succ h)

theorem set_append_len (l : List α) (x y : α) :
    ((l ++ [x]).set l.length y) = l ++ [y] := by
  induction l with
  | nil => rfl
  | cons a as ih => simp only [List.cons_append, List.length_cons, List.set_cons_succ, ih]

theorem eraseIdx_append_cons (l1 l2 : List α) (x : α) :
    (l1 ++ x :: l2).eraseIdx l1.length = l1 ++ l2 := by
  induction l1 with
  | nil => rfl
  | cons a as ih => exact congrArg (List.cons a) ih

theorem getD_ext (l1 l2 : List α) (hlen : l1.length = l2.length)
    (h : ∀ i, i < l1.length → l1.getD i d = l2.getD i d) : l1 = l2 := by
  induction l1 generalizing l2 with
  | nil =>
    cases l2 with
    | nil => rfl
    | cons b bs => simp at hlen
  | cons a as ih =>
    cases l2 with
    | nil => simp at hlen
    | cons b bs =>
      have h0 := h 0 (Nat.succ_pos _)
      simp only [List.getD_cons_zero] at h0
      subst h0
      have : as = bs := by
        refine ih bs (by simpa using hlen) (fun i hi => ?_)
        have := h (i + 1) (Nat.succ_lt_succ hi)
        simpa using this
      rw [this]

theorem getD_replicate (n i : Nat) (h : i < n) :
    (List.replicate n d).getD i d = d := by
  induction n generalizing i with
  | zero => simp at h
  | succ m ih =>
    cases i with
    | zero => rfl
    | succ j => exact ih j (Nat.lt_of_succ_lt_succ h)

theorem countP_congr_mem (l : List α) (f g : α → Bool)
    (h : ∀ a ∈ l, f a = g a) : l.countP f = l.countP g := by
  induction l with
  | nil => rfl
  | cons x xs ih =>
    rw [List.countP_cons, List.countP_cons, h x (List.mem_cons_self x xs),
      ih (fun a ha => h a (List.mem_cons_of_mem x ha))]

theorem countP_eq_zero_of_all (l : List α) (f : α → Bool)
    (h : ∀ a ∈ l, f a = false) : l.countP f = 0 := by
  induction l with
  | nil => rfl
  | cons x xs ih =>
    rw [List.countP_cons, h x (List.mem_cons_self x xs),
      ih (fun a ha => h a (List.mem_cons_of_mem x ha))]
    rfl

end ListLemmas

/-! ### Lemmas about the shared edge-scanning helpers -/

theorem edgeMatch_iff (a b v1 v2 : Coordinates) :
    edgeMatch a b v1 v2 = true ↔ ((a = v1 ∧ b = v2) ∨ (a = v2 ∧ b = v1)) := by
  simp [edgeMatch]

theorem edgeMatch_symm (a b v1 v2 : Coordinates) :
    edgeMatch a b v1 v2 = edgeMatch a b v2 v1 := by
  rw [edgeMatch, edgeMatch, decide_eq_decide]
  tauto

theorem edgeMatch_same (a b a' b' v1 v2 : Coordinates)
    (h1 : edgeMatch a b v1 v2 = true) (h2 : edgeMatch a' b' v1 v2 = true) :
    edgeMatch a b a' b' = true := by
  rw [edgeMatch_iff] at h1 h2 ⊢
  rcases h1 with ⟨rfl, rfl⟩ | ⟨rfl, rfl⟩ <;> rcases h2 with ⟨rfl, rfl⟩ | ⟨rfl, rfl⟩ <;> tauto

theorem hasEdgeList_iff (es : List Edge) (v1 v2 : Coordinates) :
    hasEdgeList es v1 v2 = true ↔ ∃ e ∈ es, edgeMatch e.1 e.2.1 v1 v2 = true := by
  simp [hasEdgeList, List.any_eq_true]

theorem hasEdgeList_eq_false (es : List Edge) (v1 v2 : Coordinates) :
    hasEdgeList es v1 v2 = false ↔ ∀ e ∈ es, edgeMatch e.1 e.2.1 v1 v2 = false := by
  simp [hasEdgeList, List.any_eq_false]

theorem hasEdgeList_symm (es : List Edge) (v1 v2 : Coordinates) :
    hasEdgeList es v1 v2 = hasEdgeList es v2 v1 := by
  rw [Bool.eq_iff_iff, hasEdgeList_iff, hasEdgeList_iff]
  constructor
  · rintro ⟨e, he, hm⟩
    exact ⟨e, he, by rw [← edgeMatch_symm]; exact hm⟩
  · rintro ⟨e, he, hm⟩
    exact ⟨e, he, by rw [edgeMatch_symm]; exact hm⟩

theorem hasEdgeList_append (es1 es2 : List Edge) (v1 v2 : Coordinates) :
    hasEdgeList (es1 ++ es2) v1 v2 = (hasEdgeList es1 v1 v2 || hasEdgeList es2 v1 v2) := by
  simp [hasEdgeList]

theorem getWallStatusList_symm (es : List Edge) (v1 v2 : Coordinates) :
    getWallStatusList es v1 v2 = getWallStatusList es v2 v1 := by
  induction es with
  | nil => rfl
  | cons e rest ih =>
    obtain ⟨a, b, w⟩ := e
    simp only [getWallStatusList]
    rw [edgeMatch_symm a b v1 v2, ih]

theorem getWallStatusList_of_not_hasEdge (es : List Edge) (v1 v2 : Coordinates)
    (h : hasEdgeList es v1 v2 = false) : getWallStatusList es v1 v2 = false := by
  induction es with
  | nil => rfl
  | cons e rest ih =>
    obtain ⟨a, b, w⟩ := e
    rw [hasEdgeList_eq_false] at h
    have hh := h (a, b, w) (List.mem_cons_self _ _)
    simp only [getWallStatusList, hh, Bool.false_eq_true, if_false]
    exact ih (by rw [hasEdgeList_eq_false]; exact fun e he => h e (List.mem_cons_of_mem _ he))

theorem getWallStatusList_first (es1 es2 : List Edge) (a b : Coordinates) (w : Bool)
    (v1 v2 : Coordinates) (h1 : ∀ e ∈ es1, edgeMatch e.1 e.2.1 v1 v2 = false)
    (h2 : edgeMatch a b v1 v2 = true) :
    getWallStatusList (es1 ++ (a, b, w) :: es2) v1 v2 = w := by
  induction es1 with
  | nil => simp [getWallStatusList, h2]
  | cons e rest ih =>
    obtain ⟨x, y, z⟩ := e
    have hx := h1 (x, y, z) (List.mem_cons_self _ _)
    simp only [List.cons_append, getWallStatusList] at *
    rw [hx]
    simp only [Bool.false_eq_true, if_false]
    exact ih (fun e he => h1 e (List.mem_cons_of_mem _ he))

theorem updateWallList_eq_none (es : List Edge) (v1 v2 : Coordinates) (s : Bool) :
    updateWallList es v1 v2 s = none ↔ hasEdgeList es v1 v2 = false := by
  induction es with
  | nil => simp [updateWallList, hasEdgeList]
  | cons e rest ih =>
    obtain ⟨a, b, w⟩ := e
    rw [hasEdgeList_eq_false]
    simp only [updateWallList, List.mem_cons]
    by_cases hm : edgeMatch a b v1 v2 = true
    · simp [hm]
    · rw [if_neg hm, Option.map_eq_none', ih, hasEdgeList_eq_false]
      constructor
      · rintro hall e (rfl | he)
        · simpa using hm
        · exact hall e he
      · intro hall e he
        exact hall e (Or.inr he)

theorem updateWallList_eq_some (es : List Edge) (v1 v2 : Coordinates) (s : Bool)
    (es' : List Edge) (h : updateWallList es v1 v2 s = some es') :
    ∃ es1 a b w es2, es = es1 ++ (a, b, w) :: es2 ∧ es' = es1 ++ (a, b, s) :: es2 ∧
      (∀ e ∈ es1, edgeMatch e.1 e.2.1 v1 v2 = false) ∧ edgeMatch a b v1 v2 = true := by
  induction es generalizing es' with
  | nil => simp [updateWallList] at h
  | cons e rest ih =>
    obtain ⟨a, b, w⟩ := e
    simp only [updateWallList] at h
    by_cases hm : edgeMatch a b v1 v2 = true
    · rw [if_pos hm] at h
      refine ⟨[], a, b, w, rest, by simp, ?_, by simp, hm⟩
      simp only [Option.some.injEq] at h
      simp [← h]
    · rw [if_neg hm, Option.map_eq_some'] at h
      obtain ⟨es0, h0, rfl⟩ := h
      obtain ⟨es1, x, y, z, es2, he, he', hall, hmt⟩ := ih es0 h0
      refine ⟨(a, b, w) :: es1, x, y, z, es2, by rw [he]; rfl, by rw [he']; rfl, ?_, hmt⟩
      intro e he2
      rcases List.mem_cons.mp he2 with rfl | hin
      · simpa using hm
      · exact hall e hin

theorem updateWallList_symm (es : List Edge) (v1 v2 : Coordinates) (s : Bool) :
    updateWallList es v1 v2 s = updateWallList es v2 v1 s := by
  induction es with
  | nil => rfl
  | cons e rest ih =>
    obtain ⟨a, b, w⟩ := e
    simp only [updateWallList]
    rw [edgeMatch_symm a b v1 v2, ih]

theorem findEdgeIdx_eq_none (es : List Edge) (v1 v2 : Coordinates) :
    findEdgeIdx es v1 v2 = none ↔ hasEdgeList es v1 v2 = false := by
  induction es with
  | nil => simp [findEdgeIdx, hasEdgeList]
  | cons e rest ih =>
    obtain ⟨a, b, w⟩ := e
    rw [hasEdgeList_eq_false]
    simp only [findEdgeIdx, List.mem_cons]
    by_cases hm : edgeMatch a b v1 v2 = true
    · simp [hm]
    · rw [if_neg hm, Option.map_eq_none', ih, hasEdgeList_eq_false]
      constructor
      · rintro hall e (rfl | he)
        · simpa using hm
        · exact hall e he
      · intro hall e he
        exact hall e (Or.inr he)

theorem findEdgeIdx_eq_some (es : List Edge) (v1 v2 : Coordinates)
    (i : Nat) (h : findEdgeIdx es v1 v2 = some i) :
    ∃ es1 a b w es2, es = es1 ++ (a, b, w) :: es2 ∧ es1.length = i ∧
      (∀ e ∈ es1, edgeMatch e.1 e.2.1 v1 v2 = false) ∧ edgeMatch a b v1 v2 = true := by
  induction es generalizing i with
  | nil => simp [findEdgeIdx] at h
  | cons e rest ih =>
    obtain ⟨a, b, w⟩ := e
    simp only [findEdgeIdx] at h
    by_cases hm : edgeMatch a b v1 v2 = true
    · rw [if_pos hm] at h
      simp only [Option.some.injEq] at h
      exact ⟨[], a, b, w, rest, by simp, by simp [← h], by simp, hm⟩
    · rw [if_neg hm, Option.map_eq_some'] at h
      obtain ⟨j, h0, rfl⟩ := h
      obtain ⟨es1, x, y, z, es2, he, hlen, hall, hmt⟩ := ih j h0
      refine ⟨(a, b, w) :: es1, x, y, z, es2, by rw [he]; rfl, by simp [hlen], ?_, hmt⟩
      intro e he2
      rcases List.mem_cons.mp he2 with rfl | hin
      · simpa using hm
      · exact hall e hin

theorem findEdgeIdx_symm (es : List Edge) (v1 v2 : Coordinates) :
    findEdgeIdx es v1 v2 = findEdgeIdx es v2 v1 := by
  induction es with
  | nil => rfl
  | cons e rest ih =>
    obtain ⟨a, b, w⟩ := e
    simp only [findEdgeIdx]
    rw [edgeMatch_symm a b v1 v2, ih]

/-! ### Lemmas about the neighbour scans -/

theorem hasEdgeList_cons (a b : Coordinates) (z : Bool) (rest : List Edge)
    (v1 v2 : Coordinates) :
    hasEdgeList ((a, b, z) :: rest) v1 v2 = (edgeMatch a b v1 v2 || hasEdgeList rest v1 v2) :=
  rfl

theorem mem_neighboursList (es : List Edge) (v w : Coordinates) :
    w ∈ neighboursList es v ↔ hasEdgeList es v w = true := by
  induction es with
  | nil => simp [neighboursList, hasEdgeList]
  | cons e rest ih =>
    obtain ⟨a, b, z⟩ := e
    rw [hasEdgeList_cons, Bool.or_eq_true, ← ih, edgeMatch_iff]
    simp only [neighboursList]
    by_cases ha : a = v
    · subst ha
      rw [if_pos rfl, List.mem_cons]
      constructor
      · rintro (rfl | hr)
        · exact Or.inl (Or.inl ⟨rfl, rfl⟩)
        · exact Or.inr hr
      · rintro ((⟨h1, rfl⟩ | ⟨h1, h2⟩) | hr)
        · exact Or.inl rfl
        · exact Or.inl (h1.symm.trans h2.symm)
        · exact Or.inr hr
    · rw [if_neg ha]
      by_cases hb : b = v
      · subst hb
        rw [if_pos rfl, List.mem_cons]
        constructor
        · rintro (rfl | hr)
          · exact Or.inl (Or.inr ⟨rfl, rfl⟩)
          · exact Or.inr hr
        · rintro ((⟨h1, h2⟩ | ⟨h1, h2⟩) | hr)
          · exact absurd h1 ha
          · exact Or.inl h1.symm
          · exact Or.inr hr
      · rw [if_neg hb]
        constructor
        · intro hr
          exact Or.inr hr
        · rintro ((⟨h1, h2⟩ | ⟨h1, h2⟩) | hr)
          · exact absurd h1 ha
          · exact absurd h2 hb
          · exact hr

theorem neighboursList_append (es1 es2 : List Edge) (v : Coordinates) :
    neighboursList (es1 ++ es2) v = neighboursList es1 v ++ neighboursList es2 v := by
  induction es1 with
  | nil => rfl
  | cons e rest ih =>
    obtain ⟨a, b, z⟩ := e
    by_cases ha : a = v
    · simp [neighboursList, ha, ih]
    · by_cases hb : b = v <;> simp [neighboursList, ha, hb, ih]

theorem neighboursList_head_match (a b : Coordinates) (z : Bool) (v x : Coordinates)
    (h : x ∈ neighboursList [(a, b, z)] v) : edgeMatch a b v x = true := by
  rw [mem_neighboursList, hasEdgeList_iff] at h
  obtain ⟨e, he, hm⟩ := h
  rcases List.mem_singleton.mp he with rfl
  exact hm

theorem neighboursList_nodup (es : List Edge) (v : Coordinates)
    (h : edgesDistinct es) : (neighboursList es v).Nodup := by
  induction es with
  | nil => exact List.nodup_nil
  | cons e rest ih =>
    obtain ⟨a, b, z⟩ := e
    rw [edgesDistinct, List.pairwise_cons] at h
    obtain ⟨hhead, htail⟩ := h
    have hrest : (neighboursList rest v).Nodup := ih htail
    have hnotin : ∀ x, x ∈ neighboursList [(a, b, z)] v → x ∉ neighboursList rest v := by
      intro x hx hmem
      have hm1 : edgeMatch a b v x = true := neighboursList_head_match a b z v x hx
      rw [mem_neighboursList, hasEdgeList_iff] at hmem
      obtain ⟨e2, he2, hm2⟩ := hmem
      have hsame : sameEnds (a, b, z) e2 = true :=
        edgeMatch_same a b e2.1 e2.2.1 v x hm1 hm2
      rw [hhead e2 he2] at hsame
      exact Bool.false_ne_true hsame
    simp only [neighboursList]
    by_cases ha : a = v
    · rw [if_pos ha]
      refine List.nodup_cons.mpr ⟨?_, hrest⟩
      exact hnotin b (by simp [neighboursList, ha])
    · rw [if_neg ha]
      by_cases hb : b = v
      · rw [if_pos hb]
        refine List.nodup_cons.mpr ⟨?_, hrest⟩
        exact hnotin a (by simp [neighboursList, ha, hb])
      · rw [if_neg hb]
        exact hrest

theorem neighboursList_eq_nil (es : List Edge) (v : Coordinates)
    (h : ∀ e ∈ es, e.1 ≠ v ∧ e.2.1 ≠ v) : neighboursList es v = [] := by
  induction es with
  | nil => rfl
  | cons e rest ih =>
    obtain ⟨a, b, z⟩ := e
    obtain ⟨ha, hb⟩ := h (a, b, z) (List.mem_cons_self _ _)
    simp only [neighboursList, if_neg ha, if_neg hb]
    exact ih (fun e he => h e (List.mem_cons_of_mem _ he))

theorem neighboursScan_eq (es : List Edge) (rowCells : List Nat) (label : Coordinates)
    (hlen : rowCells.length = es.length)
    (hcell : ∀ i, i < es.length → rowCells.getD i 0 =
      (if (es.getD i default).1 = label ∨ (es.getD i default).2.1 = label then 1 else 0)) :
    IncMatGraph.neighboursScan es rowCells label = neighboursList es label := by
  induction es generalizing rowCells with
  | nil =>
    cases rowCells with
    | nil => rfl
    | cons c cs => simp at hlen
  | cons e rest ih =>
    obtain ⟨a, b, z⟩ := e
    cases rowCells with
    | nil => simp at hlen
    | cons c cs =>
      have hc : c = (if a = label ∨ b = label then 1 else 0) := hcell 0 (Nat.succ_pos _)
      have hrec : IncMatGraph.neighboursScan rest cs label = neighboursList rest label := by
        refine ih cs (by simpa using hlen) (fun i hi => ?_)
        exact hcell (i + 1) (Nat.succ_lt_succ hi)
      by_cases hend : a = label ∨ b = label
      · rw [if_pos hend] at hc
        subst hc
        by_cases ha : a = label
        · simp [IncMatGraph.neighboursScan, neighboursList, ha, hrec]
        · have h2 : b = label := hend.resolve_left ha
          simp [IncMatGraph.neighboursScan, neighboursList, ha, h2, hrec]
      · rw [if_neg hend] at hc
        subst hc
        have ha : ¬ a = label := fun h1 => hend (Or.inl h1)
        have hb : ¬ b = label := fun h2 => hend (Or.inr h2)
        simp [IncMatGraph.neighboursScan, neighboursList, ha, hb, hrec]

/-! ### Lemmas about the vertex dictionary -/

theorem lookupVertex_isSome (vs : List (Coordinates × Nat)) (label : Coordinates) :
    (lookupVertex vs label).isSome = true ↔ label ∈ vs.map Prod.fst := by
  induction vs with
  | nil => simp [lookupVertex]
  | cons p rest ih =>
    obtain ⟨k, i⟩ := p
    simp only [lookupVertex, List.map_cons, List.mem_cons]
    by_cases hk : k = label
    · simp [hk]
    · rw [if_neg hk, ih]
      constructor
      · exact Or.inr
      · rintro (rfl | hr)
        · exact absurd rfl hk
        · exact hr

theorem lookupVertex_eq_none (vs : List (Coordinates × Nat)) (label : Coordinates) :
    lookupVertex vs label = none ↔ label ∉ vs.map Prod.fst := by
  rw [← lookupVertex_isSome]
  cases lookupVertex vs label <;> simp

theorem map_fst_withIndices (ks : List Coordinates) (s : Nat) :
    (withIndices ks s).map Prod.fst = ks := by
  induction ks generalizing s with
  | nil => rfl
  | cons k rest ih => simp [withIndices, ih]

theorem withIndices_append_one (ks : List Coordinates) (k : Coordinates) (s : Nat) :
    withIndices (ks ++ [k]) s = withIndices ks s ++ [(k, s + ks.length)] := by
  induction ks generalizing s with
  | nil => rfl
  | cons x rest ih =>
    show (x, s) :: withIndices (rest ++ [k]) (s + 1) =
      (x, s) :: (withIndices rest (s + 1) ++ [(k, s + (rest.length + 1))])
    rw [ih (s + 1)]
    have harith : s + 1 + rest.length = s + (rest.length + 1) := by omega
    rw [harith]

theorem lookupVertex_withIndices (ks : List Coordinates) (s : Nat) (label : Coordinates) :
    lookupVertex (withIndices ks s) label = (keyIdx ks label).map (fun i => i + s) := by
  induction ks generalizing s with
  | nil => rfl
  | cons k rest ih =>
    simp only [withIndices, lookupVertex, keyIdx]
    by_cases hk : k = label
    · simp [hk]
    · rw [if_neg hk, if_neg hk, ih (s + 1)]
      cases keyIdx rest label with
      | none => rfl
      | some j =>
        show some (j + (s + 1)) = some (Nat.succ j + s)
        rw [Option.some.injEq]
        omega

theorem keyIdx_spec (ks : List Coordinates) (label : Coordinates) (i : Nat)
    (h : keyIdx ks label = some i) : i < ks.length ∧ ks.getD i default = label := by
  induction ks generalizing i with
  | nil => simp [keyIdx] at h
  | cons k rest ih =>
    simp only [keyIdx] at h
    by_cases hk : k = label
    · rw [if_pos hk] at h
      simp only [Option.some.injEq] at h
      subst h
      exact ⟨Nat.succ_pos _, hk⟩
    · rw [if_neg hk, Option.map_eq_some'] at h
      obtain ⟨j, hj, rfl⟩ := h
      obtain ⟨hlt, hget⟩ := ih j hj
      exact ⟨Nat.succ_lt_succ hlt, hget⟩

theorem keyIdx_eq_none (ks : List Coordinates) (label : Coordinates) :
    keyIdx ks label = none ↔ label ∉ ks := by
  induction ks with
  | nil => simp [keyIdx]
  | cons k rest ih =>
    simp only [keyIdx, List.mem_cons]
    by_cases hk : k = label
    · simp [hk]
    · rw [if_neg hk, Option.map_eq_none', ih]
      constructor
      · intro hn hmem
        rcases hmem with rfl | hr
        · exact hk rfl
        · exact hn hr
      · intro hn hr
        exact hn (Or.inr hr)

theorem nodup_getD_inj (ks : List Coordinates) (h : ks.Nodup) (i j : Nat)
    (hi : i < ks.length) (hj : j < ks.length)
    (he : ks.getD i default = ks.getD j default) : i = j := by
  induction ks generalizing i j with
  | nil => simp at hi
  | cons k rest ih =>
    rw [List.nodup_cons] at h
    obtain ⟨hk, hrest⟩ := h
    cases i with
    | zero =>
      cases j with
      | zero => rfl
      | succ m =>
        exfalso
        apply hk
        rw [List.getD_cons_zero] at he
        rw [List.getD_cons_succ] at he
        rw [he]
        exact getD_mem default rest m (Nat.lt_of_succ_lt_succ hj)
    | succ n =>
      cases j with
      | zero =>
        exfalso
        apply hk
        rw [List.getD_cons_zero] at he
        rw [List.getD_cons_succ] at he
        rw [← he]
        exact getD_mem default rest n (Nat.lt_of_succ_lt_succ hi)
      | succ m =>
        rw [List.getD_cons_succ, List.getD_cons_succ] at he
        exact congrArg Nat.succ
          (ih hrest n m (Nat.lt_of_succ_lt_succ hi) (Nat.lt_of_succ_lt_succ hj) he)

/-! ### Case characterizations of the mutating operations -/

theorem el_addEdge_no_vertex (g : EdgeListGraph) (v1 v2 : Coordinates) (w : Bool)
    (h : g.hasVertex v1 = false ∨ g.hasVertex v2 = false) :
    g.addEdge v1 v2 w = (g, false) := by
  rcases h with h | h <;> simp [EdgeListGraph.addEdge, h]

theorem el_addEdge_dup (g : EdgeListGraph) (v1 v2 : Coordinates) (w : Bool)
    (hd : g.hasEdge v1 v2 = true) : g.addEdge v1 v2 w = (g, false) := by
  simp [EdgeListGraph.addEdge, hd]

theorem el_addEdge_ok (g : EdgeListGraph) (v1 v2 : Coordinates) (w : Bool)
    (h1 : g.hasVertex v1 = true) (h2 : g.hasVertex v2 = true)
    (hd : g.hasEdge v1 v2 = false) :
    g.addEdge v1 v2 w = ({ g with edges := g.edges ++ [(v1, v2, w)] }, true) := by
  simp [EdgeListGraph.addEdge, h1, h2, hd]

theorem im_hasVertex_iff (g : IncMatGraph) (v : Coordinates) :
    g.hasVertex v = true ↔ v ∈ g.keys := by
  rw [IncMatGraph.hasVertex, lookupVertex_isSome]
  rfl

theorem im_addEdge_no_vertex (g : IncMatGraph) (v1 v2 : Coordinates) (w : Bool)
    (h : g.hasVertex v1 = false ∨ g.hasVertex v2 = false) :
    g.addEdge v1 v2 w = (g, false) := by
  rcases h with h | h
  · cases hl : lookupVertex g.vertices v1 with
    | none =>
      cases hl2 : lookupVertex g.vertices v2 <;> simp [IncMatGraph.addEdge, hl, hl2]
    | some i =>
      rw [IncMatGraph.hasVertex, hl] at h
      simp at h
  · cases hl : lookupVertex g.vertices v2 with
    | none =>
      cases hl2 : lookupVertex g.vertices v1 <;> simp [IncMatGraph.addEdge, hl2, hl]
    | some i =>
      rw [IncMatGraph.hasVertex, hl] at h
      simp at h

theorem im_addEdge_dup (g : IncMatGraph) (v1 v2 : Coordinates) (w : Bool)
    (hd : g.hasEdge v1 v2 = true) : g.addEdge v1 v2 w = (g, false) := by
  cases h1 : lookupVertex g.vertices v1 <;> cases h2 : lookupVertex g.vertices v2 <;>
    simp [IncMatGraph.addEdge, h1, h2, hd]

theorem im_addEdge_ok (g : IncMatGraph) (v1 v2 : Coordinates) (w : Bool) (i1 i2 : Nat)
    (h1 : lookupVertex g.vertices v1 = some i1) (h2 : lookupVertex g.vertices v2 = some i2)
    (hd : g.hasEdge v1 v2 = false) :
    g.addEdge v1 v2 w =
      ({ g with
         edges := g.edges ++ [(v1, v2, w)],
         incidence_mat :=
           setMatCell (setMatCell (g.incidence_mat.map (fun r => r ++ [0]))
             i1 g.edges.length 1) i2 g.edges.length 1 }, true) := by
  simp [IncMatGraph.addEdge, h1, h2, hd]

theorem el_updateWall_none (g : EdgeListGraph) (v1 v2 : Coordinates) (s : Bool)
    (h : g.hasEdge v1 v2 = false) : g.updateWall v1 v2 s = (g, false) := by
  rw [EdgeListGraph.updateWall]
  rw [(updateWallList_eq_none g.edges v1 v2 s).mpr h]

theorem el_updateWall_some (g : EdgeListGraph) (v1 v2 : Coordinates) (s : Bool)
    (es : List Edge) (h : updateWallList g.edges v1 v2 s = some es) :
    g.updateWall v1 v2 s = ({ g with edges := es }, true) := by
  rw [EdgeListGraph.updateWall, h]

theorem im_updateWall_none (g : IncMatGraph) (v1 v2 : Coordinates) (s : Bool)
    (h : g.hasEdge v1 v2 = false) : g.updateWall v1 v2 s = (g, false) := by
  rw [IncMatGraph.updateWall]
  rw [(updateWallList_eq_none g.edges v1 v2 s).mpr h]

theorem im_updateWall_some (g : IncMatGraph) (v1 v2 : Coordinates) (s : Bool)
    (es : List Edge) (h : updateWallList g.edges v1 v2 s = some es) :
    g.updateWall v1 v2 s = ({ g with edges := es }, true) := by
  rw [IncMatGraph.updateWall, h]

theorem el_removeEdge_none (g : EdgeListGraph) (v1 v2 : Coordinates)
    (h : g.hasEdge v1 v2 = false) : g.removeEdge v1 v2 = (g, false) := by
  rw [EdgeListGraph.removeEdge]
  rw [(findEdgeIdx_eq_none g.edges v1 v2).mpr h]

theorem el_removeEdge_some (g : EdgeListGraph) (v1 v2 : Coordinates) (i : Nat)
    (h : findEdgeIdx g.edges v1 v2 = some i) :
    g.removeEdge v1 v2 = ({ g with edges := g.edges.eraseIdx i }, true) := by
  rw [EdgeListGraph.removeEdge, h]

theorem im_removeEdge_none (g : IncMatGraph) (v1 v2 : Coordinates)
    (h : g.hasEdge v1 v2 = false) : g.removeEdge v1 v2 = (g, false) := by
  rw [IncMatGraph.removeEdge]
  rw [(findEdgeIdx_eq_none g.edges v1 v2).mpr h]

theorem im_removeEdge_some (g : IncMatGraph) (v1 v2 : Coordinates) (i : Nat)
    (h : findEdgeIdx g.edges v1 v2 = some i) :
    g.removeEdge v1 v2 =
      ({ g with
         edges := g.edges.eraseIdx i,
         incidence_mat := g.incidence_mat.map (fun r => r.eraseIdx i) }, true) := by
  rw [IncMatGraph.removeEdge, h]

/-! ### The two backings stay in correspondence -/

theorem corr_init : Corr EdgeListGraph.init IncMatGraph.init :=
  ⟨rfl, rfl⟩

theorem corr_hasVertex (a : EdgeListGraph) (b : IncMatGraph) (h : Corr a b)
    (v : Coordinates) : a.hasVertex v = b.hasVertex v := by
  rw [Bool.eq_iff_iff, EdgeListGraph.hasVertex, decide_eq_true_eq, im_hasVertex_iff, h.2]

theorem corr_hasEdge (a : EdgeListGraph) (b : IncMatGraph) (h : Corr a b)
    (v1 v2 : Coordinates) : a.hasEdge v1 v2 = b.hasEdge v1 v2 := by
  rw [EdgeListGraph.hasEdge, IncMatGraph.hasEdge, h.1]

theorem corr_applyOp (a : EdgeListGraph) (b : IncMatGraph) (h : Corr a b) (op : Op) :
    Corr (a.applyOp op) (b.applyOp op) := by
  obtain ⟨hE, hV⟩ := h
  cases op with
  | addVertex v =>
    show Corr (a.addVertex v) (b.addVertex v)
    by_cases hm : v ∈ a.vertices
    · have hbv : b.hasVertex v = true := by
        rw [← corr_hasVertex a b ⟨hE, hV⟩]
        exact decide_eq_true hm
      rw [EdgeListGraph.addVertex, if_pos hm, IncMatGraph.addVertex, if_pos hbv]
      exact ⟨hE, hV⟩
    · have hbv : b.hasVertex v = false := by
        rw [← corr_hasVertex a b ⟨hE, hV⟩]
        exact decide_eq_false hm
      rw [EdgeListGraph.addVertex, if_neg hm, IncMatGraph.addVertex, hbv]
      refine ⟨hE, ?_⟩
      show a.vertices ++ [v] = (b.vertices ++ [(v, b.vertices.length)]).map Prod.fst
      rw [List.map_append, ← IncMatGraph.keys, hV]
      rfl
  | addEdge v1 v2 w =>
    show Corr (a.addEdge v1 v2 w).1 (b.addEdge v1 v2 w).1
    by_cases h1 : a.hasVertex v1 = true
    · by_cases h2 : a.hasVertex v2 = true
      · have hb1 : b.hasVertex v1 = true := by rw [← corr_hasVertex a b ⟨hE, hV⟩]; exact h1
        have hb2 : b.hasVertex v2 = true := by rw [← corr_hasVertex a b ⟨hE, hV⟩]; exact h2
        obtain ⟨i1, hi1⟩ := Option.isSome_iff_exists.mp hb1
        obtain ⟨i2, hi2⟩ := Option.isSome_iff_exists.mp hb2
        by_cases hd : a.hasEdge v1 v2 = true
        · rw [el_addEdge_dup a v1 v2 w hd,
            im_addEdge_dup b v1 v2 w (by rw [← corr_hasEdge a b ⟨hE, hV⟩]; exact hd)]
          exact ⟨hE, hV⟩
        · rw [el_addEdge_ok a v1 v2 w h1 h2 (Bool.not_eq_true _ ▸ hd),
            im_addEdge_ok b v1 v2 w i1 i2 hi1 hi2
              (by rw [← corr_hasEdge a b ⟨hE, hV⟩]; exact Bool.not_eq_true _ ▸ hd)]
          exact ⟨by rw [hE], hV⟩
      · have h2f : a.hasVertex v2 = false := Bool.not_eq_true _ ▸ h2
        rw [el_addEdge_no_vertex a v1 v2 w (Or.inr h2f),
          im_addEdge_no_vertex b v1 v2 w
            (Or.inr (by rw [← corr_hasVertex a b ⟨hE, hV⟩]; exact h2f))]
        exact ⟨hE, hV⟩
    · have h1f : a.hasVertex v1 = false := Bool.not_eq_true _ ▸ h1
      rw [el_addEdge_no_vertex a v1 v2 w (Or.inl h1f),
        im_addEdge_no_vertex b v1 v2 w
          (Or.inl (by rw [← corr_hasVertex a b ⟨hE, hV⟩]; exact h1f))]
      exact ⟨hE, hV⟩
  | updateWall v1 v2 s =>
    show Corr (a.updateWall v1 v2 s).1 (b.updateWall v1 v2 s).1
    cases hu : updateWallList a.edges v1 v2 s with
    | none =>
      have ha : a.hasEdge v1 v2 = false := (updateWallList_eq_none _ _ _ _).mp hu
      rw [el_updateWall_none a v1 v2 s ha,
        im_updateWall_none b v1 v2 s (by rw [← corr_hasEdge a b ⟨hE, hV⟩]; exact ha)]
      exact ⟨hE, hV⟩
    | some es =>
      rw [el_updateWall_some a v1 v2 s es hu,
        im_updateWall_some b v1 v2 s es (by rw [← hE]; exact hu)]
      exact ⟨rfl, hV⟩
  | removeEdge v1 v2 =>
    show Corr (a.removeEdge v1 v2).1 (b.removeEdge v1 v2).1
    cases hf : findEdgeIdx a.edges v1 v2 with
    | none =>
      have ha : a.hasEdge v1 v2 = false := (findEdgeIdx_eq_none _ _ _).mp hf
      rw [el_removeEdge_none a v1 v2 ha,
        im_removeEdge_none b v1 v2 (by rw [← corr_hasEdge a b ⟨hE, hV⟩]; exact ha)]
      exact ⟨hE, hV⟩
    | some i =>
      rw [el_removeEdge_some a v1 v2 i hf,
        im_removeEdge_some b v1 v2 i (by rw [← hE]; exact hf)]
      exact ⟨by rw [hE], hV⟩

theorem corr_applyOps (a : EdgeListGraph) (b : IncMatGraph) (h : Corr a b)
    (ops : List Op) : Corr (a.applyOps ops) (b.applyOps ops) := by
  induction ops generalizing a b with
  | nil => exact h
  | cons op rest ih => exact ih _ _ (corr_applyOp a b h op)

theorem corr_run (ops : List Op) :
    Corr (EdgeListGraph.applyOps EdgeListGraph.init ops)
      (IncMatGraph.applyOps IncMatGraph.init ops) :=
  corr_applyOps _ _ corr_init ops

/-! ### Preservation of the edge-list invariants -/

theorem edgesDistinct_replace_wall (es1 es2 : List Edge) (a b : Coordinates) (w s : Bool)
    (h : edgesDistinct (es1 ++ (a, b, w) :: es2)) :
    edgesDistinct (es1 ++ (a, b, s) :: es2) := by
  rw [edgesDistinct, List.pairwise_append] at h ⊢
  obtain ⟨h1, h2, h3⟩ := h
  rw [List.pairwise_cons] at h2
  obtain ⟨h4, h5⟩ := h2
  refine ⟨h1, List.pairwise_cons.mpr ⟨fun y hy => h4 y hy, h5⟩, ?_⟩
  intro x hx y hy
  rcases List.mem_cons.mp hy with rfl | hy2
  · exact h3 x hx (a, b, w) (List.mem_cons_self _ _)
  · exact h3 x hx y (List.mem_cons_of_mem _ hy2)

theorem edgesDistinct_append_new (es : List Edge) (v1 v2 : Coordinates) (w : Bool)
    (h : edgesDistinct es) (hd : hasEdgeList es v1 v2 = false) :
    edgesDistinct (es ++ [(v1, v2, w)]) := by
  rw [edgesDistinct, List.pairwise_append]
  refine ⟨h, List.pairwise_singleton _ _, ?_⟩
  intro x hx y hy
  rcases List.mem_singleton.mp hy with rfl
  exact (hasEdgeList_eq_false es v1 v2).mp hd x hx

theorem edgesDistinct_eraseIdx (es : List Edge) (i : Nat) (h : edgesDistinct es) :
    edgesDistinct (es.eraseIdx i) :=
  (h.sublist (List.eraseIdx_sublist es i))

theorem mem_eraseIdx_imp (es : List Edge) (i : Nat) (e : Edge)
    (h : e ∈ es.eraseIdx i) : e ∈ es :=
  (List.eraseIdx_sublist es i).subset h

theorem elWF_init : ElWF EdgeListGraph.init := by
  constructor
  · intro e he
    simp [EdgeListGraph.init] at he
  · exact List.Pairwise.nil

theorem elWF_applyOp (g : EdgeListGraph) (h : ElWF g) (op : Op) : ElWF (g.applyOp op) := by
  cases op with
  | addVertex v =>
    show ElWF (g.addVertex v)
    rw [EdgeListGraph.addVertex]
    split
    · exact h
    · refine ⟨fun e he => ?_, h.distinct⟩
      obtain ⟨h1, h2⟩ := h.ends e he
      exact ⟨List.mem_append_left _ h1, List.mem_append_left _ h2⟩
  | addEdge v1 v2 w =>
    show ElWF (g.addEdge v1 v2 w).1
    by_cases h1 : g.hasVertex v1 = true
    · by_cases h2 : g.hasVertex v2 = true
      · by_cases hd : g.hasEdge v1 v2 = true
        · rw [el_addEdge_dup g v1 v2 w hd]
          exact h
        · have hdf : g.hasEdge v1 v2 = false := Bool.not_eq_true _ ▸ hd
          rw [el_addEdge_ok g v1 v2 w h1 h2 hdf]
          constructor
          · intro e he
            rcases List.mem_append.mp he with he | he
            · exact h.ends e he
            · rcases List.mem_singleton.mp he with rfl
              rw [EdgeListGraph.hasVertex, decide_eq_true_eq] at h1 h2
              exact ⟨h1, h2⟩
          · exact edgesDistinct_append_new g.edges v1 v2 w h.distinct hdf
      · rw [el_addEdge_no_vertex g v1 v2 w (Or.inr (Bool.not_eq_true _ ▸ h2))]
        exact h
    · rw [el_addEdge_no_vertex g v1 v2 w (Or.inl (Bool.not_eq_true _ ▸ h1))]
      exact h
  | updateWall v1 v2 s =>
    show ElWF (g.updateWall v1 v2 s).1
    cases hu : updateWallList g.edges v1 v2 s with
    | none =>
      rw [el_updateWall_none g v1 v2 s ((updateWallList_eq_none _ _ _ _).mp hu)]
      exact h
    | some es =>
      rw [el_updateWall_some g v1 v2 s es hu]
      obtain ⟨es1, a, b, w0, es2, hsplit, hnew, hall, hm⟩ :=
        updateWallList_eq_some g.edges v1 v2 s es hu
      constructor
      · intro e he
        rw [hnew] at he
        rcases List.mem_append.mp he with he | he
        · exact h.ends e (by rw [hsplit]; exact List.mem_append_left _ he)
        · rcases List.mem_cons.mp he with rfl | he
          · exact h.ends (a, b, w0)
              (by rw [hsplit]; exact List.mem_append_right _ (List.mem_cons_self _ _))
          · exact h.ends e
              (by rw [hsplit]; exact List.mem_append_right _ (List.mem_cons_of_mem _ he))
      · rw [hnew]
        exact edgesDistinct_replace_wall es1 es2 a b w0 s (hsplit ▸ h.distinct)
  | removeEdge v1 v2 =>
    show ElWF (g.removeEdge v1 v2).1
    cases hf : findEdgeIdx g.edges v1 v2 with
    | none =>
      rw [el_removeEdge_none g v1 v2 ((findEdgeIdx_eq_none _ _ _).mp hf)]
      exact h
    | some i =>
      rw [el_removeEdge_some g v1 v2 i hf]
      refine ⟨fun e he => h.ends e (mem_eraseIdx_imp _ i e he), ?_⟩
      exact edgesDistinct_eraseIdx _ i h.distinct

theorem elWF_applyOps (g : EdgeListGraph) (h : ElWF g) (ops : List Op) :
    ElWF (g.applyOps ops) := by
  induction ops generalizing g with
  | nil => exact h
  | cons op rest ih => exact ih _ (elWF_applyOp g h op)

theorem elWF_run (ops : List Op) : ElWF (EdgeListGraph.applyOps EdgeListGraph.init ops) :=
  elWF_applyOps _ elWF_init ops

/-! ### Matrix bookkeeping lemmas for the incidence-matrix backing -/

theorem keys_length (g : IncMatGraph) : g.keys.length = g.vertices.length :=
  List.length_map _ _

theorem lookup_shape (g : IncMatGraph) (h : g.vertices = withIndices g.keys 0)
    (x : Coordinates) : lookupVertex g.vertices x = keyIdx g.keys x := by
  rw [h, lookupVertex_withIndices]
  cases keyIdx g.keys x with
  | none => rfl
  | some j => rfl

theorem im_not_hasVertex (g : IncMatGraph) (v : Coordinates)
    (h : g.hasVertex v = false) : v ∉ g.keys := by
  intro hmem
  rw [(im_hasVertex_iff g v).mpr hmem] at h
  exact absurd h (by simp)

theorem getD_map_eraseIdx (mat : List (List Nat)) (i r : Nat) :
    (mat.map (fun row => row.eraseIdx i)).getD r [] = (mat.getD r []).eraseIdx i := by
  induction mat generalizing r with
  | nil => simp [List.eraseIdx]
  | cons row rest ih =>
    cases r with
    | zero => rfl
    | succ n => exact ih n

theorem replace_wall_getD (es1 es2 : List Edge) (a b : Coordinates) (w s : Bool) (i : Nat) :
    ((es1 ++ (a, b, s) :: es2).getD i default).1 =
      ((es1 ++ (a, b, w) :: es2).getD i default).1 ∧
    ((es1 ++ (a, b, s) :: es2).getD i default).2.1 =
      ((es1 ++ (a, b, w) :: es2).getD i default).2.1 := by
  by_cases hi : i < es1.length
  · rw [getD_append_lt default es1 _ i hi, getD_append_lt default es1 _ i hi]
    exact ⟨rfl, rfl⟩
  · have hge : es1.length ≤ i := Nat.le_of_not_lt hi
    rw [getD_append_ge default es1 _ i hge, getD_append_ge default es1 _ i hge]
    cases i - es1.length with
    | zero => exact ⟨rfl, rfl⟩
    | succ k => exact ⟨rfl, rfl⟩

theorem addEdge_row_formula (mat : List (List Nat)) (m i1 i2 : Nat)
    (h1 : i1 < mat.length) (h2 : i2 < mat.length)
    (hrl : ∀ row ∈ mat, row.length = m) (r : Nat) (hr : r < mat.length) :
    (setMatCell (setMatCell (mat.map (fun row => row ++ [0])) i1 m 1) i2 m 1).getD r [] =
      (mat.getD r []) ++ [if r = i1 ∨ r = i2 then 1 else 0] := by
  have hlen1 : (mat.map (fun row => row ++ [0])).length = mat.length := List.length_map _ _
  have hmat1 : ∀ q, q < mat.length →
      (mat.map (fun row => row ++ [0])).getD q [] = (mat.getD q []) ++ [0] := by
    intro q hq
    exact getD_map_lt [] [] (fun row => row ++ [0]) mat q hq
  have hrowlen : ∀ q, q < mat.length → (mat.getD q []).length = m := by
    intro q hq
    exact hrl _ (getD_mem [] mat q hq)
  have hset1 : ((mat.map (fun row => row ++ [0])).getD i1 []).set m 1 =
      (mat.getD i1 []) ++ [1] := by
    rw [hmat1 i1 h1, ← hrowlen i1 h1]
    exact set_append_len _ _ _
  have hmat2len : (setMatCell (mat.map (fun row => row ++ [0])) i1 m 1).length =
      mat.length := by
    rw [setMatCell, List.length_set, hlen1]
  have hmat2 : ∀ q, q < mat.length →
      (setMatCell (mat.map (fun row => row ++ [0])) i1 m 1).getD q [] =
        (mat.getD q []) ++ [if q = i1 then 1 else 0] := by
    intro q hq
    rw [setMatCell]
    by_cases hqe : q = i1
    · subst hqe
      rw [getD_set_self [] _ _ _ (by rw [hlen1]; exact hq), hset1, if_pos rfl]
    · rw [getD_set_ne [] _ _ _ _ hqe, hmat1 q hq, if_neg hqe]
  have hset2 : ((setMatCell (mat.map (fun row => row ++ [0])) i1 m 1).getD i2 []).set m 1 =
      (mat.getD i2 []) ++ [1] := by
    rw [hmat2 i2 h2]
    have : ((mat.getD i2 []) ++ [if i2 = i1 then 1 else 0]).set (mat.getD i2 []).length 1 =
        (mat.getD i2 []) ++ [1] := set_append_len _ _ _
    rw [hrowlen i2 h2] at this
    exact this
  rw [setMatCell]
  by_cases hre : r = i2
  · subst hre
    rw [getD_set_self [] _ _ _ (by rw [hmat2len]; exact hr), hset2,
      if_pos (Or.inr rfl)]
  · rw [getD_set_ne [] _ _ _ _ hre, hmat2 r hr]
    by_cases hr1 : r = i1
    · rw [if_pos hr1, if_pos (Or.inl hr1)]
    · rw [if_neg hr1, if_neg (by rintro (h | h) <;> [exact hr1 h; exact hre h])]

/-! ### Preservation of the incidence-matrix invariants -/

theorem incWF_init : IncWF IncMatGraph.init := by
  refine ⟨rfl, List.nodup_nil, rfl, ?_, ?_, ?_, List.Pairwise.nil⟩
  · intro row hrow
    simp [IncMatGraph.init] at hrow
  · intro r hr
    simp [IncMatGraph.init, IncMatGraph.keys] at hr
  · intro e he
    simp [IncMatGraph.init] at he

theorem incWF_addVertex (g : IncMatGraph) (h : IncWF g) (v : Coordinates) :
    IncWF (g.addVertex v) := by
  rw [IncMatGraph.addVertex]
  by_cases hv : g.hasVertex v = true
  · rw [if_pos hv]
    exact h
  · rw [if_neg hv]
    have hnotin : v ∉ g.keys := im_not_hasVertex g v (Bool.not_eq_true _ ▸ hv)
    have hk : ({ g with
        vertices := g.vertices ++ [(v, g.vertices.length)],
        incidence_mat := g.incidence_mat ++ [List.replicate g.edges.length 0] } :
        IncMatGraph).keys = g.keys ++ [v] := by
      simp [IncMatGraph.keys]
    constructor
    · show g.vertices ++ [(v, g.vertices.length)] = withIndices _ 0
      rw [hk, withIndices_append_one, ← h.shape, Nat.zero_add, keys_length]
    · rw [hk]
      refine h.nodup.append (List.nodup_singleton v) ?_
      intro x hx hy
      rcases List.mem_singleton.mp hy with rfl
      exact hnotin hx
    · show (g.incidence_mat ++ [List.replicate g.edges.length 0]).length = _
      rw [hk, List.length_append, List.length_append, h.rows]
      rfl
    · intro row hrow
      rcases List.mem_append.mp hrow with hrow | hrow
      · exact h.rowLen row hrow
      · rcases List.mem_singleton.mp hrow with rfl
        exact List.length_replicate _ _
    · intro r hr i hi
      rw [hk] at hr
      rw [List.length_append, List.length_singleton] at hr
      dsimp only at hi ⊢
      rw [hk]
      by_cases hrlt : r < g.keys.length
      · rw [getD_append_lt [] _ _ r (by rw [h.rows]; exact hrlt),
          getD_append_lt default _ _ r hrlt]
        exact h.cell r hrlt i hi
      · have hreq : r = g.keys.length := by omega
        subst hreq
        rw [getD_append_ge [] _ _ _ (by rw [h.rows]), h.rows, Nat.sub_self,
          getD_append_ge default _ _ _ (Nat.le_refl _), Nat.sub_self]
        have hmem := h.ends (g.edges.getD i default) (getD_mem default g.edges i hi)
        rw [if_neg ?_]
        · show (List.replicate g.edges.length 0).getD i 0 = 0
          rw [getD_replicate 0 _ i hi]
        · show ¬ ((g.edges.getD i default).1 = ([v].getD 0 default) ∨
            (g.edges.getD i default).2.1 = ([v].getD 0 default))
          rintro (he | he) <;> rw [List.getD_cons_zero] at he
          · exact hnotin (he ▸ hmem.1)
          · exact hnotin (he ▸ hmem.2)
    · intro e he
      rw [hk]
      exact ⟨List.mem_append_left _ (h.ends e he).1, List.mem_append_left _ (h.ends e he).2⟩
    · exact h.distinct

theorem incWF_updateWall (g : IncMatGraph) (h : IncWF g) (v1 v2 : Coordinates) (s : Bool) :
    IncWF (g.updateWall v1 v2 s).1 := by
  cases hu : updateWallList g.edges v1 v2 s with
  | none =>
    rw [im_updateWall_none g v1 v2 s ((updateWallList_eq_none _ _ _ _).mp hu)]
    exact h
  | some es =>
    rw [im_updateWall_some g v1 v2 s es hu]
    obtain ⟨es1, a, b, w0, es2, hsplit, hnew, hall, hm⟩ :=
      updateWallList_eq_some g.edges v1 v2 s es hu
    have hlen : es.length = g.edges.length := by
      rw [hnew, hsplit]
      simp
    constructor
    · exact h.shape
    · exact h.nodup
    · exact h.rows
    · intro row hrow
      show row.length = es.length
      rw [hlen]
      exact h.rowLen row hrow
    · intro r hr i hi
      dsimp only [IncMatGraph.keys] at hr hi ⊢
      rw [hlen] at hi
      have hnow := h.cell r hr i hi
      have hsame := replace_wall_getD es1 es2 a b w0 s i
      rw [← hsplit] at hsame
      rw [IncMatGraph.keys] at hnow
      rw [hnow, hnew, hsame.1, hsame.2]
    · intro e he
      show e.1 ∈ g.keys ∧ e.2.1 ∈ g.keys
      rw [hnew] at he
      rcases List.mem_append.mp he with he | he
      · exact h.ends e (by rw [hsplit]; exact List.mem_append_left _ he)
      · rcases List.mem_cons.mp he with rfl | he
        · exact h.ends (a, b, w0)
            (by rw [hsplit]; exact List.mem_append_right _ (List.mem_cons_self _ _))
        · exact h.ends e
            (by rw [hsplit]; exact List.mem_append_right _ (List.mem_cons_of_mem _ he))
    · show edgesDistinct es
      rw [hnew]
      exact edgesDistinct_replace_wall es1 es2 a b w0 s (hsplit ▸ h.distinct)

theorem incWF_removeEdge (g : IncMatGraph) (h : IncWF g) (v1 v2 : Coordinates) :
    IncWF (g.removeEdge v1 v2).1 := by
  cases hf : findEdgeIdx g.edges v1 v2 with
  | none =>
    rw [im_removeEdge_none g v1 v2 ((findEdgeIdx_eq_none _ _ _).mp hf)]
    exact h
  | some i =>
    rw [im_removeEdge_some g v1 v2 i hf]
    obtain ⟨es1, a, b, w0, es2, hsplit, hleni, hall, hm⟩ :=
      findEdgeIdx_eq_some g.edges v1 v2 i hf
    have hilt : i < g.edges.length := by
      rw [hsplit, ← hleni]
      simp
    have herase : (g.edges.eraseIdx i).length + 1 = g.edges.length :=
      eraseIdx_len g.edges i hilt
    constructor
    · exact h.shape
    · exact h.nodup
    · show (g.incidence_mat.map (fun r => r.eraseIdx i)).length = _
      rw [List.length_map]
      exact h.rows
    · intro row hrow
      show row.length = (g.edges.eraseIdx i).length
      rcases List.mem_map.mp hrow with ⟨row0, hrow0, rfl⟩
      have h0 : row0.length = g.edges.length := h.rowLen row0 hrow0
      have h1 : (row0.eraseIdx i).length + 1 = row0.length :=
        eraseIdx_len row0 i (by rw [h0]; exact hilt)
      omega
    · intro r hr j hj
      dsimp only [IncMatGraph.keys] at hr hj ⊢
      rw [getD_map_eraseIdx, getD_eraseIdx, getD_eraseIdx]
      have hcell := h.cell
      rw [IncMatGraph.keys] at hcell
      by_cases hji : j < i
      · rw [if_pos hji, if_pos hji]
        exact hcell r hr j (by omega)
      · rw [if_neg hji, if_neg hji]
        exact hcell r hr (j + 1) (by omega)
    · intro e he
      exact h.ends e (mem_eraseIdx_imp _ i e he)
    · exact edgesDistinct_eraseIdx _ i h.distinct

theorem incWF_addEdge (g : IncMatGraph) (h : IncWF g) (v1 v2 : Coordinates) (w : Bool) :
    IncWF (g.addEdge v1 v2 w).1 := by
  cases h1 : lookupVertex g.vertices v1 with
  | none =>
    rw [im_addEdge_no_vertex g v1 v2 w (Or.inl (by rw [IncMatGraph.hasVertex, h1]; rfl))]
    exact h
  | some i1 =>
    cases h2 : lookupVertex g.vertices v2 with
    | none =>
      rw [im_addEdge_no_vertex g v1 v2 w (Or.inr (by rw [IncMatGraph.hasVertex, h2]; rfl))]
      exact h
    | some i2 =>
      by_cases hd : g.hasEdge v1 v2 = true
      · rw [im_addEdge_dup g v1 v2 w hd]
        exact h
      · have hdf : g.hasEdge v1 v2 = false := Bool.not_eq_true _ ▸ hd
        rw [im_addEdge_ok g v1 v2 w i1 i2 h1 h2 hdf]
        have hk1 : keyIdx g.keys v1 = some i1 := by rw [← lookup_shape g h.shape]; exact h1
        have hk2 : keyIdx g.keys v2 = some i2 := by rw [← lookup_shape g h.shape]; exact h2
        obtain ⟨hi1lt, hget1⟩ := keyIdx_spec g.keys v1 i1 hk1
        obtain ⟨hi2lt, hget2⟩ := keyIdx_spec g.keys v2 i2 hk2
        have hv1mem : v1 ∈ g.keys := hget1 ▸ getD_mem default g.keys i1 hi1lt
        have hv2mem : v2 ∈ g.keys := hget2 ▸ getD_mem default g.keys i2 hi2lt
        have hm1 : i1 < g.incidence_mat.length := by rw [h.rows]; exact hi1lt
        have hm2 : i2 < g.incidence_mat.length := by rw [h.rows]; exact hi2lt
        have hrow := addEdge_row_formula g.incidence_mat g.edges.length i1 i2 hm1 hm2 h.rowLen
        constructor
        · exact h.shape
        · exact h.nodup
        · show (setMatCell (setMatCell (g.incidence_mat.map (fun r => r ++ [0]))
            i1 g.edges.length 1) i2 g.edges.length 1).length = _
          rw [setMatCell, List.length_set, setMatCell, List.length_set, List.length_map,
            h.rows]
          rfl
        · intro row hrow2
          dsimp only at hrow2 ⊢
          have hlen2 : ∀ row2 ∈ setMatCell (g.incidence_mat.map (fun r => r ++ [0]))
              i1 g.edges.length 1, row2.length = g.edges.length + 1 := by
            intro row2 hmem2
            rw [setMatCell] at hmem2
            rcases List.mem_or_eq_of_mem_set hmem2 with hmem2 | rfl
            · rcases List.mem_map.mp hmem2 with ⟨row0, hrow0, rfl⟩
              rw [List.length_append, h.rowLen row0 hrow0]
              rfl
            · rw [List.length_set]
              have hg : (g.incidence_mat.map (fun r => r ++ [0])).getD i1 [] =
                  (g.incidence_mat.getD i1 []) ++ [0] :=
                getD_map_lt [] [] _ _ i1 hm1
              rw [hg, List.length_append,
                h.rowLen _ (getD_mem [] g.incidence_mat i1 hm1)]
              rfl
          rw [setMatCell] at hrow2
          rcases List.mem_or_eq_of_mem_set hrow2 with hrow2 | rfl
          · rw [hlen2 row hrow2, List.length_append, List.length_singleton]
          · rw [List.length_set]
            have hm2b : i2 < (setMatCell (g.incidence_mat.map (fun r => r ++ [0]))
                i1 g.edges.length 1).length := by
              rw [setMatCell, List.length_set, List.length_map]
              exact hm2
            rw [hlen2 _ (getD_mem [] _ i2 hm2b), List.length_append, List.length_singleton]
        · intro r hr i hi
          dsimp only [IncMatGraph.keys] at hr hi ⊢
          have hcell := h.cell
          have hends := h.ends
          rw [IncMatGraph.keys] at hcell hget1 hget2 hi1lt hi2lt
          have hrm : r < g.incidence_mat.length := by rw [h.rows, IncMatGraph.keys]; omega
          rw [hrow r hrm]
          have hrlen : (g.incidence_mat.getD r []).length = g.edges.length :=
            h.rowLen _ (getD_mem [] g.incidence_mat r hrm)
          rw [List.length_append, List.length_singleton] at hi
          by_cases hilt : i < g.edges.length
          · rw [getD_append_lt 0 _ _ i (by rw [hrlen]; exact hilt),
              getD_append_lt default _ _ i hilt]
            exact hcell r hr i hilt
          · have hieq : i = g.edges.length := by omega
            subst hieq
            rw [getD_append_ge 0 _ _ _ (by rw [hrlen]), hrlen, Nat.sub_self,
              getD_append_ge default _ _ _ (Nat.le_refl _), Nat.sub_self]
            by_cases hcond : r = i1 ∨ r = i2
            · have hside : ([(v1, v2, w)].getD 0 default).1 =
                  (List.map Prod.fst g.vertices).getD r default ∨
                  ([(v1, v2, w)].getD 0 default).2.1 =
                  (List.map Prod.fst g.vertices).getD r default := by
                rcases hcond with rfl | rfl
                · exact Or.inl hget1.symm
                · exact Or.inr hget2.symm
              rw [if_pos hcond, if_pos hside]
              rfl
            · have hnodup := h.nodup
              rw [IncMatGraph.keys] at hnodup
              have hside : ¬ (([(v1, v2, w)].getD 0 default).1 =
                  (List.map Prod.fst g.vertices).getD r default ∨
                  ([(v1, v2, w)].getD 0 default).2.1 =
                  (List.map Prod.fst g.vertices).getD r default) := by
                rintro (he | he)
                · exact hcond (Or.inl
                    (nodup_getD_inj _ hnodup i1 r hi1lt hr (hget1.trans he)).symm)
                · exact hcond (Or.inr
                    (nodup_getD_inj _ hnodup i2 r hi2lt hr (hget2.trans he)).symm)
              rw [if_neg hcond, if_neg hside]
              rfl
        · intro e he
          dsimp only [IncMatGraph.keys] at he ⊢
          have hends := h.ends
          rw [IncMatGraph.keys] at hends
          rcases List.mem_append.mp he with he | he
          · exact hends e he
          · rcases List.mem_singleton.mp he with rfl
            have hv1 := hv1mem
            have hv2 := hv2mem
            rw [IncMatGraph.keys] at hv1 hv2
            exact ⟨hv1, hv2⟩
        · show edgesDistinct (g.edges ++ [(v1, v2, w)])
          exact edgesDistinct_append_new g.edges v1 v2 w h.distinct hdf

theorem incWF_applyOp (g : IncMatGraph) (h : IncWF g) (op : Op) : IncWF (g.applyOp op) := by
  cases op with
  | addVertex v => exact incWF_addVertex g h v
  | addEdge v1 v2 w => exact incWF_addEdge g h v1 v2 w
  | updateWall v1 v2 s => exact incWF_updateWall g h v1 v2 s
  | removeEdge v1 v2 => exact incWF_removeEdge g h v1 v2

theorem incWF_applyOps (g : IncMatGraph) (h : IncWF g) (ops : List Op) :
    IncWF (g.applyOps ops) := by
  induction ops generalizing g with
  | nil => exact h
  | cons op rest ih => exact ih _ (incWF_applyOp g h op)

theorem incWF_run (ops : List Op) : IncWF (IncMatGraph.applyOps IncMatGraph.init ops) :=
  incWF_applyOps _ incWF_init ops

/-! ### Observations derived from the invariants -/

theorem im_neighbours_of_not_vertex (g : IncMatGraph) (v : Coordinates)
    (h : g.hasVertex v = false) : g.neighbours v = [] := by
  cases hl : lookupVertex g.vertices v with
  | none => rw [IncMatGraph.neighbours, hl]
  | some i =>
    rw [IncMatGraph.hasVertex, hl] at h
    simp at h

theorem im_neighbours_eq (g : IncMatGraph) (h : IncWF g) (v : Coordinates) :
    g.neighbours v = neighboursList g.edges v := by
  cases hl : lookupVertex g.vertices v with
  | none =>
    rw [IncMatGraph.neighbours, hl]
    have hnotin : v ∉ g.keys := (lookupVertex_eq_none _ _).mp hl
    symm
    apply neighboursList_eq_nil
    intro e he
    obtain ⟨he1, he2⟩ := h.ends e he
    exact ⟨fun hh => hnotin (hh ▸ he1), fun hh => hnotin (hh ▸ he2)⟩
  | some idx =>
    rw [IncMatGraph.neighbours, hl]
    have hkidx : keyIdx g.keys v = some idx := by rw [← lookup_shape g h.shape]; exact hl
    obtain ⟨hidxlt, hgetidx⟩ := keyIdx_spec g.keys v idx hkidx
    have hidxmat : idx < g.incidence_mat.length := by rw [h.rows]; exact hidxlt
    apply neighboursScan_eq
    · exact h.rowLen _ (getD_mem [] g.incidence_mat idx hidxmat)
    · intro i hi
      rw [h.cell idx hidxlt i hi, hgetidx]

theorem neighbours_agree_of (a : EdgeListGraph) (b : IncMatGraph) (hc : Corr a b)
    (hw : IncWF b) (v : Coordinates) : a.neighbours v = b.neighbours v := by
  rw [EdgeListGraph.neighbours, im_neighbours_eq b hw v, hc.1]

theorem matColumn_eq (g : IncMatGraph) (h : IncWF g) (i : Nat) (hi : i < g.edges.length) :
    matColumn g.incidence_mat i = g.keys.map (fun k =>
      if (g.edges.getD i default).1 = k ∨ (g.edges.getD i default).2.1 = k
      then 1 else 0) := by
  apply getD_ext 0
  · rw [matColumn, List.length_map, List.length_map, h.rows]
  · intro r hr
    rw [matColumn, List.length_map, h.rows] at hr
    rw [matColumn, getD_map_lt [] 0 _ _ r (by rw [h.rows]; exact hr),
      getD_map_lt default 0 _ _ r hr]
    exact h.cell r hr i hi

theorem count_one_map_indicator (ks : List Coordinates) (p : Coordinates → Prop)
    [DecidablePred p] :
    (ks.map (fun k => if p k then 1 else 0)).count 1 = ks.countP (fun k => decide (p k)) := by
  induction ks with
  | nil => rfl
  | cons k rest ih =>
    rw [List.map_cons, List.count_cons, List.countP_cons, ih]
    by_cases hp : p k <;> simp [hp]

theorem countP_self_one (ks : List Coordinates) (h : ks.Nodup) (x : Coordinates)
    (hx : x ∈ ks) : ks.countP (fun k => decide (x = k)) = 1 := by
  induction ks with
  | nil => simp at hx
  | cons k rest ih =>
    rw [List.nodup_cons] at h
    obtain ⟨hk, hrest⟩ := h
    rw [List.countP_cons]
    by_cases hxk : x = k
    · subst hxk
      rw [countP_eq_zero_of_all rest _ ?_]
      · simp
      · intro a ha
        simp only [decide_eq_false_iff_not]
        intro hcontra
        exact hk (hcontra ▸ ha)
    · rcases List.mem_cons.mp hx with rfl | hxr
      · exact absurd rfl hxk
      · rw [ih hrest hxr]
        simp [hxk]

theorem countP_pair_two (ks : List Coordinates) (h : ks.Nodup) (x y : Coordinates)
    (hx : x ∈ ks) (hy : y ∈ ks) (hxy : x ≠ y) :
    ks.countP (fun k => decide (x = k ∨ y = k)) = 2 := by
  induction ks with
  | nil => simp at hx
  | cons k rest ih =>
    rw [List.nodup_cons] at h
    obtain ⟨hk, hrest⟩ := h
    rw [List.countP_cons]
    by_cases hxk : x = k
    · subst hxk
      have hyrest : y ∈ rest := by
        rcases List.mem_cons.mp hy with rfl | hyr
        · exact absurd rfl hxy
        · exact hyr
      have hone : rest.countP (fun k => decide (x = k ∨ y = k)) = 1 := by
        rw [countP_congr_mem rest _ (fun k => decide (y = k)) ?_]
        · exact countP_self_one rest hrest y hyrest
        · intro a ha
          have hxa : x ≠ a := fun hcontra => hk (hcontra ▸ ha)
          simp [hxa]
      rw [hone]
      simp
    · by_cases hyk : y = k
      · subst hyk
        have hxrest : x ∈ rest := by
          rcases List.mem_cons.mp hx with rfl | hxr
          · exact absurd rfl hxk
          · exact hxr
        have hone : rest.countP (fun k => decide (x = k ∨ y = k)) = 1 := by
          rw [countP_congr_mem rest _ (fun k => decide (x = k)) ?_]
          · exact countP_self_one rest hrest x hxrest
          · intro a ha
            have hya : y ≠ a := fun hcontra => hk (hcontra ▸ ha)
            simp [hya]
        rw [hone]
        simp
      · have hxr : x ∈ rest := by
          rcases List.mem_cons.mp hx with rfl | hxr
          · exact absurd rfl hxk
          · exact hxr
        have hyr : y ∈ rest := by
          rcases List.mem_cons.mp hy with rfl | hyr
          · exact absurd rfl hyk
          · exact hyr
        rw [ih hrest hxr hyr]
        simp [hxk, hyk]

theorem column_count (g : IncMatGraph) (h : IncWF g) (i : Nat) (hi : i < g.edges.length) :
    (matColumn g.incidence_mat i).count 1 =
      (if (g.edges.getD i default).1 = (g.edges.getD i default).2.1 then 1 else 2) := by
  rw [matColumn_eq g h i hi, count_one_map_indicator]
  obtain ⟨hm1, hm2⟩ := h.ends (g.edges.getD i default) (getD_mem default g.edges i hi)
  by_cases heq : (g.edges.getD i default).1 = (g.edges.getD i default).2.1
  · rw [if_pos heq]
    rw [countP_congr_mem g.keys _ (fun k => decide ((g.edges.getD i default).1 = k)) ?_]
    · exact countP_self_one g.keys h.nodup _ hm1
    · intro a ha
      rw [← heq]
      simp
  · rw [if_neg heq]
    exact countP_pair_two g.keys h.nodup _ _ hm1 hm2 heq

/-! ### Further support lemmas for the claims -/

theorem hasEdgeList_new (es : List Edge) (v1 v2 : Coordinates) (w : Bool) :
    hasEdgeList (es ++ [(v1, v2, w)]) v1 v2 = true ∧
    hasEdgeList (es ++ [(v1, v2, w)]) v2 v1 = true := by
  constructor <;> rw [hasEdgeList_iff] <;>
    exact ⟨(v1, v2, w), by simp, by rw [edgeMatch_iff]; tauto⟩

theorem updateWall_then_getWallStatus (es es' : List Edge) (v1 v2 : Coordinates) (s : Bool)
    (h : updateWallList es v1 v2 s = some es') :
    getWallStatusList es' v1 v2 = s ∧ getWallStatusList es' v2 v1 = s := by
  obtain ⟨es1, a, b, w0, es2, hsplit, hnew, hall, hm⟩ :=
    updateWallList_eq_some es v1 v2 s es' h
  subst hnew
  constructor
  · exact getWallStatusList_first es1 es2 a b s v1 v2 hall hm
  · refine getWallStatusList_first es1 es2 a b s v2 v1 ?_ ?_
    · intro e he
      rw [← edgeMatch_symm]
      exact hall e he
    · rw [← edgeMatch_symm]
      exact hm

theorem removeEdge_core (es : List Edge) (v1 v2 : Coordinates) (i : Nat)
    (hdist : edgesDistinct es) (hf : findEdgeIdx es v1 v2 = some i) :
    hasEdgeList (es.eraseIdx i) v1 v2 = false := by
  obtain ⟨es1, a, b, w0, es2, hsplit, hleni, hall, hm⟩ := findEdgeIdx_eq_some es v1 v2 i hf
  subst hsplit
  rw [← hleni, eraseIdx_append_cons, hasEdgeList_eq_false]
  intro e he
  cases hcase : edgeMatch e.1 e.2.1 v1 v2 with
  | false => rfl
  | true =>
    exfalso
    rcases List.mem_append.mp he with he | he
    · rw [hall e he] at hcase
      exact Bool.false_ne_true hcase
    · have hsame : sameEnds (a, b, w0) e = true :=
        edgeMatch_same a b e.1 e.2.1 v1 v2 hm hcase
      rw [edgesDistinct, List.pairwise_append] at hdist
      have hmid := hdist.2.1
      rw [List.pairwise_cons] at hmid
      rw [hmid.1 e he] at hsame
      exact Bool.false_ne_true hsame

theorem count_self_loop_neighbours (es : List Edge) (v : Coordinates) (w : Bool)
    (h : hasEdgeList es v v = false) :
    (neighboursList (es ++ [(v, v, w)]) v).count v = 1 := by
  rw [neighboursList_append, List.count_append]
  have h0 : (neighboursList es v).count v = 0 := by
    rw [List.count_eq_zero, mem_neighboursList]
    simp [h]
  rw [h0]
  simp [neighboursList]

theorem el_addVertex_hasVertex (g : EdgeListGraph) (v : Coordinates) :
    (g.addVertex v).hasVertex v = true := by
  rw [EdgeListGraph.addVertex]
  by_cases hm : v ∈ g.vertices
  · rw [if_pos hm]
    exact decide_eq_true hm
  · rw [if_neg hm]
    exact decide_eq_true (List.mem_append_right _ (List.mem_singleton.mpr rfl))

theorem el_addVertex_idem (g : EdgeListGraph) (v : Coordinates) :
    (g.addVertex v).addVertex v = g.addVertex v := by
  by_cases hm : v ∈ g.vertices
  · have h1 : g.addVertex v = g := by rw [EdgeListGraph.addVertex, if_pos hm]
    rw [h1]
    exact h1
  · have h1 : g.addVertex v = { g with vertices := g.vertices ++ [v] } := by
      rw [EdgeListGraph.addVertex, if_neg hm]
    rw [h1, EdgeListGraph.addVertex,
      if_pos (List.mem_append_right _ (List.mem_singleton.mpr rfl))]

theorem im_addVertex_hasVertex (g : IncMatGraph) (v : Coordinates) :
    (g.addVertex v).hasVertex v = true := by
  rw [IncMatGraph.addVertex]
  by_cases hv : g.hasVertex v = true
  · rw [if_pos hv]
    exact hv
  · rw [if_neg hv]
    rw [im_hasVertex_iff]
    show v ∈ (g.vertices ++ [(v, g.vertices.length)]).map Prod.fst
    exact List.mem_map.mpr ⟨(v, g.vertices.length),
      List.mem_append_right _ (List.mem_singleton.mpr rfl), rfl⟩

theorem im_addVertex_idem (g : IncMatGraph) (v : Coordinates) :
    (g.addVertex v).addVertex v = g.addVertex v := by
  have h1 : (g.addVertex v).hasVertex v = true := im_addVertex_hasVertex g v
  show (g.addVertex v).addVertex v = g.addVertex v
  rw [IncMatGraph.addVertex, if_pos h1]

theorem el_addEdge_vertices (g : EdgeListGraph) (v1 v2 : Coordinates) (w : Bool) :
    (g.addEdge v1 v2 w).1.vertices = g.vertices := by
  rw [EdgeListGraph.addEdge]
  split
  · rfl
  · split <;> rfl

theorem el_updateWall_vertices (g : EdgeListGraph) (v1 v2 : Coordinates) (s : Bool) :
    (g.updateWall v1 v2 s).1.vertices = g.vertices := by
  rw [EdgeListGraph.updateWall]
  cases updateWallList g.edges v1 v2 s <;> rfl

theorem el_removeEdge_vertices (g : EdgeListGraph) (v1 v2 : Coordinates) :
    (g.removeEdge v1 v2).1.vertices = g.vertices := by
  rw [EdgeListGraph.removeEdge]
  cases findEdgeIdx g.edges v1 v2 <;> rfl

theorem im_addEdge_vertices (g : IncMatGraph) (v1 v2 : Coordinates) (w : Bool) :
    (g.addEdge v1 v2 w).1.vertices = g.vertices := by
  cases h1 : lookupVertex g.vertices v1 with
  | none =>
    rw [im_addEdge_no_vertex g v1 v2 w (Or.inl (by rw [IncMatGraph.hasVertex, h1]; rfl))]
  | some i1 =>
    cases h2 : lookupVertex g.vertices v2 with
    | none =>
      rw [im_addEdge_no_vertex g v1 v2 w (Or.inr (by rw [IncMatGraph.hasVertex, h2]; rfl))]
    | some i2 =>
      by_cases hd : g.hasEdge v1 v2 = true
      · rw [im_addEdge_dup g v1 v2 w hd]
      · rw [im_addEdge_ok g v1 v2 w i1 i2 h1 h2 (Bool.not_eq_true _ ▸ hd)]

theorem im_updateWall_vertices (g : IncMatGraph) (v1 v2 : Coordinates) (s : Bool) :
    (g.updateWall v1 v2 s).1.vertices = g.vertices := by
  rw [IncMatGraph.updateWall]
  cases updateWallList g.edges v1 v2 s <;> rfl

theorem im_removeEdge_vertices (g : IncMatGraph) (v1 v2 : Coordinates) :
    (g.removeEdge v1 v2).1.vertices = g.vertices := by
  rw [IncMatGraph.removeEdge]
  cases findEdgeIdx g.edges v1 v2 <;> rfl

theorem el_hasVertex_false_step (g : EdgeListGraph) (v : Coordinates) (op : Op)
    (hop : op ≠ Op.addVertex v) (h : g.hasVertex v = false) :
    (g.applyOp op).hasVertex v = false := by
  cases op with
  | addVertex u =>
    have huv : u ≠ v := fun he => hop (by rw [he])
    show (g.addVertex u).hasVertex v = false
    rw [EdgeListGraph.addVertex]
    by_cases hm : u ∈ g.vertices
    · rw [if_pos hm]
      exact h
    · rw [if_neg hm]
      rw [EdgeListGraph.hasVertex, decide_eq_false_iff_not] at h ⊢
      intro hmem
      rcases List.mem_append.mp hmem with hmem | hmem
      · exact h hmem
      · exact huv (List.mem_singleton.mp hmem).symm
  | addEdge v1 v2 w =>
    show ((g.addEdge v1 v2 w).1).hasVertex v = false
    rw [EdgeListGraph.hasVertex, el_addEdge_vertices]
    exact h
  | updateWall v1 v2 s =>
    show ((g.updateWall v1 v2 s).1).hasVertex v = false
    rw [EdgeListGraph.hasVertex, el_updateWall_vertices]
    exact h
  | removeEdge v1 v2 =>
    show ((g.removeEdge v1 v2).1).hasVertex v = false
    rw [EdgeListGraph.hasVertex, el_removeEdge_vertices]
    exact h

theorem im_hasVertex_false_step (g : IncMatGraph) (v : Coordinates) (op : Op)
    (hop : op ≠ Op.addVertex v) (h : g.hasVertex v = false) :
    (g.applyOp op).hasVertex v = false := by
  cases op with
  | addVertex u =>
    have huv : u ≠ v := fun he => hop (by rw [he])
    show (g.addVertex u).hasVertex v = false
    rw [IncMatGraph.addVertex]
    by_cases hm : g.hasVertex u = true
    · rw [if_pos hm]
      exact h
    · rw [if_neg hm]
      cases hfin : ((⟨g.vertices ++ [(u, g.vertices.length)], g.edges,
          g.incidence_mat ++ [List.replicate g.edges.length 0]⟩ :
          IncMatGraph)).hasVertex v with
      | false => rfl
      | true =>
        exfalso
        rw [im_hasVertex_iff] at hfin
        have : v ∈ (g.vertices ++ [(u, g.vertices.length)]).map Prod.fst := hfin
        rw [List.map_append] at this
        rcases List.mem_append.mp this with hmem | hmem
        · exact im_not_hasVertex g v h hmem
        · rcases List.mem_map.mp hmem with ⟨p, hp, hpv⟩
          rcases List.mem_singleton.mp hp with rfl
          exact huv hpv
  | addEdge v1 v2 w =>
    show ((g.addEdge v1 v2 w).1).hasVertex v = false
    rw [IncMatGraph.hasVertex, im_addEdge_vertices]
    exact h
  | updateWall v1 v2 s =>
    show ((g.updateWall v1 v2 s).1).hasVertex v = false
    rw [IncMatGraph.hasVertex, im_updateWall_vertices]
    exact h
  | removeEdge v1 v2 =>
    show ((g.removeEdge v1 v2).1).hasVertex v = false
    rw [IncMatGraph.hasVertex, im_removeEdge_vertices]
    exact h

theorem el_hasVertex_false_ops (g : EdgeListGraph) (v : Coordinates) (ops : List Op) :
    Op.addVertex v ∉ ops → g.hasVertex v = false →
    (g.applyOps ops).hasVertex v = false := by
  induction ops generalizing g with
  | nil =>
    intro _ h
    exact h
  | cons op rest ih =>
    intro hv h
    have hop : op ≠ Op.addVertex v := fun he => hv (he ▸ List.mem_cons_self _ _)
    exact ih _ (fun hmem => hv (List.mem_cons_of_mem _ hmem))
      (el_hasVertex_false_step g v op hop h)

theorem im_hasVertex_false_ops (g : IncMatGraph) (v : Coordinates) (ops : List Op) :
    Op.addVertex v ∉ ops → g.hasVertex v = false →
    (g.applyOps ops).hasVertex v = false := by
  induction ops generalizing g with
  | nil =>
    intro _ h
    exact h
  | cons op rest ih =>
    intro hv h
    have hop : op ≠ Op.addVertex v := fun he => hv (he ▸ List.mem_cons_self _ _)
    exact ih _ (fun hmem => hv (List.mem_cons_of_mem _ hmem))
      (im_hasVertex_false_step g v op hop h)

/-! ### The claims -/

/-- C1: applying any fixed sequence of addVertex/addEdge/updateWall/removeEdge calls
identically to a fresh `EdgeListGraph` and a fresh `IncMatGraph` leaves the two
instances in agreement on every `hasVertex`, `hasEdge` and `getWallStatus` query and
on `neighbours(v)` compared as sets, for every vertex and pair of vertices; since the
sequence is universally quantified, this holds after every prefix of any sequence. -/
theorem claim1_cross_backing_equivalence (ops : List Op) :
    (∀ v, (EdgeListGraph.applyOps EdgeListGraph.init ops).hasVertex v =
      (IncMatGraph.applyOps IncMatGraph.init ops).hasVertex v) ∧
    (∀ v1 v2, (EdgeListGraph.applyOps EdgeListGraph.init ops).hasEdge v1 v2 =
      (IncMatGraph.applyOps IncMatGraph.init ops).hasEdge v1 v2) ∧
    (∀ v1 v2, (EdgeListGraph.applyOps EdgeListGraph.init ops).getWallStatus v1 v2 =
      (IncMatGraph.applyOps IncMatGraph.init ops).getWallStatus v1 v2) ∧
    (∀ v w, w ∈ (EdgeListGraph.applyOps EdgeListGraph.init ops).neighbours v ↔
      w ∈ (IncMatGraph.applyOps IncMatGraph.init ops).neighbours v) := by
  have hc := corr_run ops
  have hw := incWF_run ops
  refine ⟨corr_hasVertex _ _ hc, corr_hasEdge _ _ hc, ?_, ?_⟩
  · intro v1 v2
    rw [EdgeListGraph.getWallStatus, IncMatGraph.getWallStatus, hc.1]
  · intro v w
    rw [neighbours_agree_of _ _ hc hw v]

/-- C3: for both backings, `addEdge(v1, v2, wall)` returns false and leaves the graph
unchanged when an endpoint is missing or an edge between the pair already exists (in
either order, since `hasEdge` is symmetric); otherwise it appends exactly one edge
record carrying the given wall flag and returns true, after which `hasEdge` holds in
both endpoint orders; the wall flag defaults to false when omitted. -/
theorem claim3_addEdge_spec (gE : EdgeListGraph) (gI : IncMatGraph)
    (v1 v2 : Coordinates) (w : Bool) :
    (gE.hasVertex v1 = false ∨ gE.hasVertex v2 = false ∨ gE.hasEdge v1 v2 = true →
      gE.addEdge v1 v2 w = (gE, false)) ∧
    (gE.hasVertex v1 = true → gE.hasVertex v2 = true → gE.hasEdge v1 v2 = false →
      gE.addEdge v1 v2 w = ({ gE with edges := gE.edges ++ [(v1, v2, w)] }, true) ∧
      (gE.addEdge v1 v2 w).1.hasEdge v1 v2 = true ∧
      (gE.addEdge v1 v2 w).1.hasEdge v2 v1 = true) ∧
    gE.addEdge v1 v2 = gE.addEdge v1 v2 false ∧
    (gI.hasVertex v1 = false ∨ gI.hasVertex v2 = false ∨ gI.hasEdge v1 v2 = true →
      gI.addEdge v1 v2 w = (gI, false)) ∧
    (gI.hasVertex v1 = true → gI.hasVertex v2 = true → gI.hasEdge v1 v2 = false →
      (gI.addEdge v1 v2 w).2 = true ∧
      (gI.addEdge v1 v2 w).1.edges = gI.edges ++ [(v1, v2, w)] ∧
      (gI.addEdge v1 v2 w).1.vertices = gI.vertices ∧
      (gI.addEdge v1 v2 w).1.hasEdge v1 v2 = true ∧
      (gI.addEdge v1 v2 w).1.hasEdge v2 v1 = true) ∧
    gI.addEdge v1 v2 = gI.addEdge v1 v2 false := by
  refine ⟨?_, ?_, rfl, ?_, ?_, rfl⟩
  · rintro (h | h | h)
    · exact el_addEdge_no_vertex gE v1 v2 w (Or.inl h)
    · exact el_addEdge_no_vertex gE v1 v2 w (Or.inr h)
    · exact el_addEdge_dup gE v1 v2 w h
  · intro h1 h2 hd
    have hok := el_addEdge_ok gE v1 v2 w h1 h2 hd
    refine ⟨hok, ?_, ?_⟩
    · rw [hok]
      exact (hasEdgeList_new gE.edges v1 v2 w).1
    · rw [hok]
      exact (hasEdgeList_new gE.edges v1 v2 w).2
  · rintro (h | h | h)
    · exact im_addEdge_no_vertex gI v1 v2 w (Or.inl h)
    · exact im_addEdge_no_vertex gI v1 v2 w (Or.inr h)
    · exact im_addEdge_dup gI v1 v2 w h
  · intro h1 h2 hd
    obtain ⟨i1, hi1⟩ := Option.isSome_iff_exists.mp h1
    obtain ⟨i2, hi2⟩ := Option.isSome_iff_exists.mp h2
    have hok := im_addEdge_ok gI v1 v2 w i1 i2 hi1 hi2 hd
    rw [hok]
    exact ⟨rfl, rfl, rfl, (hasEdgeList_new gI.edges v1 v2 w).1,
      (hasEdgeList_new gI.edges v1 v2 w).2⟩

/-- C3 witness: concrete successful insertion on both backings after the sample
scenario prefix, and a concrete rejected duplicate insertion. -/
theorem claim3_addEdge_spec_witness :
    ((EdgeListGraph.applyOps EdgeListGraph.init sampleOps).hasVertex cB = true ∧
     (EdgeListGraph.applyOps EdgeListGraph.init sampleOps).hasVertex cC = true ∧
     (EdgeListGraph.applyOps EdgeListGraph.init sampleOps).hasEdge cB cC = false ∧
     ((EdgeListGraph.applyOps EdgeListGraph.init sampleOps).addEdge cB cC true).1.hasEdge
       cC cB = true) ∧
    ((IncMatGraph.applyOps IncMatGraph.init sampleOps).hasEdge cA cB = true ∧
     (IncMatGraph.applyOps IncMatGraph.init sampleOps).addEdge cA cB false =
       (IncMatGraph.applyOps IncMatGraph.init sampleOps, false)) :=
  ⟨⟨by decide, by decide, by decide,
    ((claim3_addEdge_spec (EdgeListGraph.applyOps EdgeListGraph.init sampleOps)
      IncMatGraph.init cB cC true).2.1 (by decide) (by decide) (by decide)).2.2⟩,
   ⟨by decide,
    (claim3_addEdge_spec EdgeListGraph.init
      (IncMatGraph.applyOps IncMatGraph.init sampleOps) cA cB false).2.2.2.1
      (Or.inr (Or.inr (by decide)))⟩⟩

/-- C5: for both backings, edge lookup is symmetric in the endpoints — `hasEdge` and
`getWallStatus` give the same answer in both endpoint orders in every state — and when
an edge between v1 and v2 exists, `updateWall` succeeds in either endpoint order and a
subsequent `getWallStatus` in either order returns the written status. -/
theorem claim5_symmetry (gE : EdgeListGraph) (gI : IncMatGraph)
    (v1 v2 : Coordinates) (s : Bool) :
    gE.hasEdge v1 v2 = gE.hasEdge v2 v1 ∧
    gE.getWallStatus v1 v2 = gE.getWallStatus v2 v1 ∧
    gI.hasEdge v1 v2 = gI.hasEdge v2 v1 ∧
    gI.getWallStatus v1 v2 = gI.getWallStatus v2 v1 ∧
    (gE.hasEdge v1 v2 = true →
      (gE.updateWall v1 v2 s).2 = true ∧ (gE.updateWall v2 v1 s).2 = true ∧
      (gE.updateWall v1 v2 s).1.getWallStatus v1 v2 = s ∧
      (gE.updateWall v1 v2 s).1.getWallStatus v2 v1 = s ∧
      (gE.updateWall v2 v1 s).1.getWallStatus v1 v2 = s ∧
      (gE.updateWall v2 v1 s).1.getWallStatus v2 v1 = s) ∧
    (gI.hasEdge v1 v2 = true →
      (gI.updateWall v1 v2 s).2 = true ∧ (gI.updateWall v2 v1 s).2 = true ∧
      (gI.updateWall v1 v2 s).1.getWallStatus v1 v2 = s ∧
      (gI.updateWall v1 v2 s).1.getWallStatus v2 v1 = s ∧
      (gI.updateWall v2 v1 s).1.getWallStatus v1 v2 = s ∧
      (gI.updateWall v2 v1 s).1.getWallStatus v2 v1 = s) := by
  refine ⟨hasEdgeList_symm gE.edges v1 v2, getWallStatusList_symm gE.edges v1 v2,
    hasEdgeList_symm gI.edges v1 v2, getWallStatusList_symm gI.edges v1 v2, ?_, ?_⟩
  · intro h
    cases hu : updateWallList gE.edges v1 v2 s with
    | none =>
      rw [EdgeListGraph.hasEdge, (updateWallList_eq_none _ _ _ _).mp hu] at h
      simp at h
    | some es =>
      have h21 : updateWallList gE.edges v2 v1 s = some es := by
        rw [← updateWallList_symm]
        exact hu
      obtain ⟨hs1, hs2⟩ := updateWall_then_getWallStatus gE.edges es v1 v2 s hu
      rw [el_updateWall_some gE v1 v2 s es hu, el_updateWall_some gE v2 v1 s es h21]
      exact ⟨rfl, rfl, hs1, hs2, hs1, hs2⟩
  · intro h
    cases hu : updateWallList gI.edges v1 v2 s with
    | none =>
      rw [IncMatGraph.hasEdge, (updateWallList_eq_none _ _ _ _).mp hu] at h
      simp at h
    | some es =>
      have h21 : updateWallList gI.edges v2 v1 s = some es := by
        rw [← updateWallList_symm]
        exact hu
      obtain ⟨hs1, hs2⟩ := updateWall_then_getWallStatus gI.edges es v1 v2 s hu
      rw [im_updateWall_some gI v1 v2 s es hu, im_updateWall_some gI v2 v1 s es h21]
      exact ⟨rfl, rfl, hs1, hs2, hs1, hs2⟩

/-- C5 witness: after the sample scenario, updating the wall of the A-B edge through
the reversed endpoint order succeeds on both backings and reads back correctly. -/
theorem claim5_symmetry_witness :
    ((EdgeListGraph.applyOps EdgeListGraph.init sampleOps).hasEdge cA cB = true ∧
     ((EdgeListGraph.applyOps EdgeListGraph.init sampleOps).updateWall cB cA
       false).1.getWallStatus cA cB = false) ∧
    ((IncMatGraph.applyOps IncMatGraph.init sampleOps).hasEdge cA cB = true ∧
     ((IncMatGraph.applyOps IncMatGraph.init sampleOps).updateWall cA cB
       false).1.getWallStatus cB cA = false) :=
  ⟨⟨by decide,
    ((claim5_symmetry (EdgeListGraph.applyOps EdgeListGraph.init sampleOps)
      IncMatGraph.init cA cB false).2.2.2.2.1 (by decide)).2.2.2.2.1⟩,
   ⟨by decide,
    ((claim5_symmetry EdgeListGraph.init
      (IncMatGraph.applyOps IncMatGraph.init sampleOps) cA cB false).2.2.2.2.2
      (by decide)).2.2.2.1⟩⟩

/-- C7: for both backings, `updateWall(v1, v2, status)` with no matching edge returns
false and changes no state at all; when a matching edge exists it returns true,
leaves the vertex collection (and, for the incidence-matrix backing, the matrix)
untouched, and replaces exactly the first matching edge's wall flag, keeping that
edge's stored endpoint order and every other edge record unchanged. -/
theorem claim7_updateWall_spec (gE : EdgeListGraph) (gI : IncMatGraph)
    (v1 v2 : Coordinates) (s : Bool) :
    (gE.hasEdge v1 v2 = false → gE.updateWall v1 v2 s = (gE, false)) ∧
    (gE.hasEdge v1 v2 = true →
      (gE.updateWall v1 v2 s).2 = true ∧
      (gE.updateWall v1 v2 s).1.vertices = gE.vertices ∧
      ∃ es1 a b w es2, gE.edges = es1 ++ (a, b, w) :: es2 ∧
        (∀ e ∈ es1, edgeMatch e.1 e.2.1 v1 v2 = false) ∧ edgeMatch a b v1 v2 = true ∧
        (gE.updateWall v1 v2 s).1.edges = es1 ++ (a, b, s) :: es2) ∧
    (gI.hasEdge v1 v2 = false → gI.updateWall v1 v2 s = (gI, false)) ∧
    (gI.hasEdge v1 v2 = true →
      (gI.updateWall v1 v2 s).2 = true ∧
      (gI.updateWall v1 v2 s).1.vertices = gI.vertices ∧
      (gI.updateWall v1 v2 s).1.incidence_mat = gI.incidence_mat ∧
      ∃ es1 a b w es2, gI.edges = es1 ++ (a, b, w) :: es2 ∧
        (∀ e ∈ es1, edgeMatch e.1 e.2.1 v1 v2 = false) ∧ edgeMatch a b v1 v2 = true ∧
        (gI.updateWall v1 v2 s).1.edges = es1 ++ (a, b, s) :: es2) := by
  refine ⟨el_updateWall_none gE v1 v2 s, ?_, im_updateWall_none gI v1 v2 s, ?_⟩
  · intro h
    cases hu : updateWallList gE.edges v1 v2 s with
    | none =>
      rw [EdgeListGraph.hasEdge, (updateWallList_eq_none _ _ _ _).mp hu] at h
      simp at h
    | some es =>
      obtain ⟨es1, a, b, w0, es2, hsplit, hnew, hall, hm⟩ :=
        updateWallList_eq_some gE.edges v1 v2 s es hu
      rw [el_updateWall_some gE v1 v2 s es hu]
      exact ⟨rfl, rfl, es1, a, b, w0, es2, hsplit, hall, hm, hnew⟩
  · intro h
    cases hu : updateWallList gI.edges v1 v2 s with
    | none =>
      rw [IncMatGraph.hasEdge, (updateWallList_eq_none _ _ _ _).mp hu] at h
      simp at h
    | some es =>
      obtain ⟨es1, a, b, w0, es2, hsplit, hnew, hall, hm⟩ :=
        updateWallList_eq_some gI.edges v1 v2 s es hu
      rw [im_updateWall_some gI v1 v2 s es hu]
      exact ⟨rfl, rfl, rfl, es1, a, b, w0, es2, hsplit, hall, hm, hnew⟩

/-- C7 witness: a concrete failed update (no matching edge) leaves both backings
unchanged, and a concrete successful update is exercised on both backings. -/
theorem claim7_updateWall_spec_witness :
    ((EdgeListGraph.applyOps EdgeListGraph.init sampleOps).hasEdge cB cC = false ∧
     (EdgeListGraph.applyOps EdgeListGraph.init sampleOps).updateWall cB cC true =
       (EdgeListGraph.applyOps EdgeListGraph.init sampleOps, false)) ∧
    ((IncMatGraph.applyOps IncMatGraph.init sampleOps).hasEdge cA cB = true ∧
     ((IncMatGraph.applyOps IncMatGraph.init sampleOps).updateWall cA cB false).2 =
       true) :=
  ⟨⟨by decide,
    (claim7_updateWall_spec (EdgeListGraph.applyOps EdgeListGraph.init sampleOps)
      IncMatGraph.init cB cC true).1 (by decide)⟩,
   ⟨by decide,
    ((claim7_updateWall_spec EdgeListGraph.init
      (IncMatGraph.applyOps IncMatGraph.init sampleOps) cA cB false).2.2.2
      (by decide)).1⟩⟩

/-- C8: for both backings, `hasVertex(v)` is false after any call sequence that never
adds v, is true immediately after `addVertex(v)` on any state, and a second
`addVertex(v)` is a complete no-op: the entire graph state (for the incidence-matrix
backing including the vertex-index assignment and the matrix) is unchanged. -/
theorem claim8_addVertex_spec (gE : EdgeListGraph) (gI : IncMatGraph) (v : Coordinates)
    (ops : List Op) :
    (gE.addVertex v).hasVertex v = true ∧
    (gE.addVertex v).addVertex v = gE.addVertex v ∧
    (gI.addVertex v).hasVertex v = true ∧
    (gI.addVertex v).addVertex v = gI.addVertex v ∧
    (Op.addVertex v ∉ ops →
      (EdgeListGraph.applyOps EdgeListGraph.init ops).hasVertex v = false ∧
      (IncMatGraph.applyOps IncMatGraph.init ops).hasVertex v = false) := by
  refine ⟨el_addVertex_hasVertex gE v, el_addVertex_idem gE v,
    im_addVertex_hasVertex gI v, im_addVertex_idem gI v, ?_⟩
  intro hv
  exact ⟨el_hasVertex_false_ops EdgeListGraph.init v ops hv rfl,
    im_hasVertex_false_ops IncMatGraph.init v ops hv rfl⟩

/-- C8 witness: the sample scenario never adds the vertex (2,2), and both backings
report it absent after running the scenario. -/
theorem claim8_addVertex_spec_witness :
    (Op.addVertex ⟨2, 2⟩ ∉ sampleOps) ∧
    ((EdgeListGraph.applyOps EdgeListGraph.init sampleOps).hasVertex ⟨2, 2⟩ = false ∧
     (IncMatGraph.applyOps IncMatGraph.init sampleOps).hasVertex ⟨2, 2⟩ = false) :=
  ⟨by decide,
   (claim8_addVertex_spec EdgeListGraph.init IncMatGraph.init ⟨2, 2⟩
     sampleOps).2.2.2.2 (by decide)⟩

/-- C9: in every state reachable from the fresh graph, both endpoints of every stored
edge are current vertices, for both backings. -/
theorem claim9_edge_endpoints_are_vertices (ops : List Op) :
    (∀ e ∈ (EdgeListGraph.applyOps EdgeListGraph.init ops).edges,
      (EdgeListGraph.applyOps EdgeListGraph.init ops).hasVertex e.1 = true ∧
      (EdgeListGraph.applyOps EdgeListGraph.init ops).hasVertex e.2.1 = true) ∧
    (∀ e ∈ (IncMatGraph.applyOps IncMatGraph.init ops).edges,
      (IncMatGraph.applyOps IncMatGraph.init ops).hasVertex e.1 = true ∧
      (IncMatGraph.applyOps IncMatGraph.init ops).hasVertex e.2.1 = true) := by
  constructor
  · intro e he
    obtain ⟨h1, h2⟩ := (elWF_run ops).ends e he
    exact ⟨decide_eq_true h1, decide_eq_true h2⟩
  · intro e he
    obtain ⟨h1, h2⟩ := (incWF_run ops).ends e he
    exact ⟨(im_hasVertex_iff _ _).mpr h1, (im_hasVertex_iff _ _).mpr h2⟩

/-- C9 witness: the A-B edge stored after the sample scenario has both endpoints
present, on both backings. -/
theorem claim9_edge_endpoints_are_vertices_witness :
    ((cA, cB, true) ∈ (EdgeListGraph.applyOps EdgeListGraph.init sampleOps).edges ∧
     (EdgeListGraph.applyOps EdgeListGraph.init sampleOps).hasVertex cA = true ∧
     (EdgeListGraph.applyOps EdgeListGraph.init sampleOps).hasVertex cB = true) ∧
    ((cA, cB, true) ∈ (IncMatGraph.applyOps IncMatGraph.init sampleOps).edges ∧
     (IncMatGraph.applyOps IncMatGraph.init sampleOps).hasVertex cA = true ∧
     (IncMatGraph.applyOps IncMatGraph.init sampleOps).hasVertex cB = true) :=
  ⟨⟨by decide,
    (claim9_edge_endpoints_are_vertices sampleOps).1 (cA, cB, true) (by decide)⟩,
   ⟨by decide,
    (claim9_edge_endpoints_are_vertices sampleOps).2 (cA, cB, true) (by decide)⟩⟩

/-- C4: in every reachable state of either backing, `neighbours(v)` contains exactly
the vertices w with `hasEdge(v, w)` true, with no duplicate entries; and for the
incidence-matrix backing a query on a vertex that is not current returns the empty
list rather than failing. -/
theorem claim4_neighbours_spec (ops : List Op) (v : Coordinates) :
    (∀ w, w ∈ (EdgeListGraph.applyOps EdgeListGraph.init ops).neighbours v ↔
      (EdgeListGraph.applyOps EdgeListGraph.init ops).hasEdge v w = true) ∧
    ((EdgeListGraph.applyOps EdgeListGraph.init ops).neighbours v).Nodup ∧
    (∀ w, w ∈ (IncMatGraph.applyOps IncMatGraph.init ops).neighbours v ↔
      (IncMatGraph.applyOps IncMatGraph.init ops).hasEdge v w = true) ∧
    ((IncMatGraph.applyOps IncMatGraph.init ops).neighbours v).Nodup ∧
    ((IncMatGraph.applyOps IncMatGraph.init ops).hasVertex v = false →
      (IncMatGraph.applyOps IncMatGraph.init ops).neighbours v = []) := by
  have hwb := incWF_run ops
  have hne := im_neighbours_eq (IncMatGraph.applyOps IncMatGraph.init ops) hwb v
  refine ⟨?_, ?_, ?_, ?_, im_neighbours_of_not_vertex _ v⟩
  · intro w
    exact mem_neighboursList _ v w
  · exact neighboursList_nodup _ v (elWF_run ops).distinct
  · intro w
    rw [hne]
    exact mem_neighboursList _ v w
  · rw [hne]
    exact neighboursList_nodup _ v hwb.distinct

/-- C4 witness: in the sample scenario, vertex (5,5) is not current, and the
incidence-matrix backing answers the neighbour query for it with the empty list. -/
theorem claim4_neighbours_spec_witness :
    (IncMatGraph.applyOps IncMatGraph.init sampleOps).hasVertex ⟨5, 5⟩ = false ∧
    (IncMatGraph.applyOps IncMatGraph.init sampleOps).neighbours ⟨5, 5⟩ = [] :=
  ⟨by decide, (claim4_neighbours_spec sampleOps ⟨5, 5⟩).2.2.2.2 (by decide)⟩

/-- C6: for both backings, in every reachable state, `removeEdge(v1, v2)` on a missing
edge returns false with the state unchanged; on an existing edge it returns true, after
which `hasEdge(v1, v2)` is false, `getWallStatus(v1, v2)` is false, and a second
`removeEdge(v1, v2)` returns false leaving the state unchanged again. -/
theorem claim6_removeEdge_spec (ops : List Op) (v1 v2 : Coordinates) :
    ((EdgeListGraph.applyOps EdgeListGraph.init ops).hasEdge v1 v2 = false →
      (EdgeListGraph.applyOps EdgeListGraph.init ops).removeEdge v1 v2 =
        (EdgeListGraph.applyOps EdgeListGraph.init ops, false)) ∧
    ((EdgeListGraph.applyOps EdgeListGraph.init ops).hasEdge v1 v2 = true →
      ((EdgeListGraph.applyOps EdgeListGraph.init ops).removeEdge v1 v2).2 = true ∧
      ((EdgeListGraph.applyOps EdgeListGraph.init ops).removeEdge
        v1 v2).1.hasEdge v1 v2 = false ∧
      ((EdgeListGraph.applyOps EdgeListGraph.init ops).removeEdge
        v1 v2).1.getWallStatus v1 v2 = false ∧
      ((EdgeListGraph.applyOps EdgeListGraph.init ops).removeEdge
        v1 v2).1.removeEdge v1 v2 =
        (((EdgeListGraph.applyOps EdgeListGraph.init ops).removeEdge v1 v2).1, false)) ∧
    ((IncMatGraph.applyOps IncMatGraph.init ops).hasEdge v1 v2 = false →
      (IncMatGraph.applyOps IncMatGraph.init ops).removeEdge v1 v2 =
        (IncMatGraph.applyOps IncMatGraph.init ops, false)) ∧
    ((IncMatGraph.applyOps IncMatGraph.init ops).hasEdge v1 v2 = true →
      ((IncMatGraph.applyOps IncMatGraph.init ops).removeEdge v1 v2).2 = true ∧
      ((IncMatGraph.applyOps IncMatGraph.init ops).removeEdge
        v1 v2).1.hasEdge v1 v2 = false ∧
      ((IncMatGraph.applyOps IncMatGraph.init ops).removeEdge
        v1 v2).1.getWallStatus v1 v2 = false ∧
      ((IncMatGraph.applyOps IncMatGraph.init ops).removeEdge
        v1 v2).1.removeEdge v1 v2 =
        (((IncMatGraph.applyOps IncMatGraph.init ops).removeEdge v1 v2).1, false)) := by
  refine ⟨el_removeEdge_none _ v1 v2, ?_, im_removeEdge_none _ v1 v2, ?_⟩
  · intro h
    cases hf : findEdgeIdx (EdgeListGraph.applyOps EdgeListGraph.init ops).edges v1 v2 with
    | none =>
      rw [EdgeListGraph.hasEdge, (findEdgeIdx_eq_none _ _ _).mp hf] at h
      simp at h
    | some i =>
      have hnot := removeEdge_core _ v1 v2 i (elWF_run ops).distinct hf
      rw [el_removeEdge_some _ v1 v2 i hf]
      exact ⟨rfl, hnot, getWallStatusList_of_not_hasEdge _ v1 v2 hnot,
        el_removeEdge_none _ v1 v2 hnot⟩
  · intro h
    cases hf : findEdgeIdx (IncMatGraph.applyOps IncMatGraph.init ops).edges v1 v2 with
    | none =>
      rw [IncMatGraph.hasEdge, (findEdgeIdx_eq_none _ _ _).mp hf] at h
      simp at h
    | some i =>
      have hnot := removeEdge_core _ v1 v2 i (incWF_run ops).distinct hf
      rw [im_removeEdge_some _ v1 v2 i hf]
      exact ⟨rfl, hnot, getWallStatusList_of_not_hasEdge _ v1 v2 hnot,
        im_removeEdge_none _ v1 v2 hnot⟩

/-- C6 witness: removing the A-C edge of the sample scenario succeeds once and a
second removal fails, on both backings. -/
theorem claim6_removeEdge_spec_witness :
    ((EdgeListGraph.applyOps EdgeListGraph.init sampleOps).hasEdge cA cC = true ∧
     ((EdgeListGraph.applyOps EdgeListGraph.init sampleOps).removeEdge cA cC).2 = true ∧
     ((EdgeListGraph.applyOps EdgeListGraph.init sampleOps).removeEdge
       cA cC).1.hasEdge cA cC = false) ∧
    ((IncMatGraph.applyOps IncMatGraph.init sampleOps).hasEdge cA cC = true ∧
     ((IncMatGraph.applyOps IncMatGraph.init sampleOps).removeEdge cA cC).2 = true ∧
     ((IncMatGraph.applyOps IncMatGraph.init sampleOps).removeEdge
       cA cC).1.hasEdge cA cC = false) :=
  ⟨⟨by decide,
    ((claim6_removeEdge_spec sampleOps cA cC).2.1 (by decide)).1,
    ((claim6_removeEdge_spec sampleOps cA cC).2.1 (by decide)).2.1⟩,
   ⟨by decide,
    ((claim6_removeEdge_spec sampleOps cA cC).2.2.2 (by decide)).1,
    ((claim6_removeEdge_spec sampleOps cA cC).2.2.2 (by decide)).2.1⟩⟩

/-- C2 counterexample: the reachable state obtained by adding vertex (0,0) and then
the self-loop edge ((0,0),(0,0)) has one edge whose matrix column contains exactly one
1-cell, not two — refuting the claim that every column of the incidence matrix has
exactly two 1-cells. -/
theorem claim2_counterexample :
    (IncMatGraph.applyOps IncMatGraph.init
      [Op.addVertex cA, Op.addEdge cA cA false]).edges.length = 1 ∧
    matColumn (IncMatGraph.applyOps IncMatGraph.init
      [Op.addVertex cA, Op.addEdge cA cA false]).incidence_mat 0 = [1] ∧
    (matColumn (IncMatGraph.applyOps IncMatGraph.init
      [Op.addVertex cA, Op.addEdge cA cA false]).incidence_mat 0).count 1 ≠ 2 := by
  refine ⟨by decide, by decide, by decide⟩

/-- C2 (amended): after every operation sequence, the incidence matrix has exactly one
row per vertex, every row has exactly one cell per edge (so the matrix is rectangular
with column count equal to edge count), a cell is 1 exactly when the row's vertex is an
endpoint of the column's edge, and every column contains exactly two 1-cells when its
edge's endpoints are distinct and exactly one 1-cell when the edge is a self-loop. -/
theorem claim2_matrix_invariant (ops : List Op) :
    (IncMatGraph.applyOps IncMatGraph.init ops).incidence_mat.length =
      (IncMatGraph.applyOps IncMatGraph.init ops).vertices.length ∧
    (∀ row ∈ (IncMatGraph.applyOps IncMatGraph.init ops).incidence_mat,
      row.length = (IncMatGraph.applyOps IncMatGraph.init ops).edges.length) ∧
    (∀ i, i < (IncMatGraph.applyOps IncMatGraph.init ops).edges.length →
      (∀ r, r < (IncMatGraph.applyOps IncMatGraph.init ops).keys.length →
        ((((IncMatGraph.applyOps IncMatGraph.init ops).incidence_mat.getD r []).getD
            i 0 = 1) ↔
          ((IncMatGraph.applyOps IncMatGraph.init ops).edges.getD i default).1 =
            (IncMatGraph.applyOps IncMatGraph.init ops).keys.getD r default ∨
          ((IncMatGraph.applyOps IncMatGraph.init ops).edges.getD i default).2.1 =
            (IncMatGraph.applyOps IncMatGraph.init ops).keys.getD r default)) ∧
      (matColumn (IncMatGraph.applyOps IncMatGraph.init ops).incidence_mat i).count 1 =
        (if ((IncMatGraph.applyOps IncMatGraph.init ops).edges.getD i default).1 =
            ((IncMatGraph.applyOps IncMatGraph.init ops).edges.getD i default).2.1
         then 1 else 2)) := by
  have h := incWF_run ops
  refine ⟨by rw [h.rows]; exact keys_length _, h.rowLen, ?_⟩
  intro i hi
  constructor
  · intro r hr
    rw [h.cell r hr i hi]
    by_cases hcond : ((IncMatGraph.applyOps IncMatGraph.init ops).edges.getD
        i default).1 = (IncMatGraph.applyOps IncMatGraph.init ops).keys.getD r default ∨
        ((IncMatGraph.applyOps IncMatGraph.init ops).edges.getD i default).2.1 =
        (IncMatGraph.applyOps IncMatGraph.init ops).keys.getD r default
    · rw [if_pos hcond]
      exact ⟨fun _ => hcond, fun _ => rfl⟩
    · rw [if_neg hcond]
      exact ⟨fun h0 => absurd h0 (by decide), fun hcc => absurd hcc hcond⟩
  · exact column_count _ h i hi

/-- C2 witness for the amended claim: concrete column contents after the sample
scenario (two edges, both with distinct endpoints, hence two 1-cells per column). -/
theorem claim2_matrix_invariant_witness :
    (0 < (IncMatGraph.applyOps IncMatGraph.init sampleOps).edges.length) ∧
    (matColumn (IncMatGraph.applyOps IncMatGraph.init
      sampleOps).incidence_mat 0).count 1 =
      (if ((IncMatGraph.applyOps IncMatGraph.init sampleOps).edges.getD 0 default).1 =
          ((IncMatGraph.applyOps IncMatGraph.init sampleOps).edges.getD 0 default).2.1
       then 1 else 2) :=
  ⟨by decide, ((claim2_matrix_invariant sampleOps).2.2 0 (by decide)).2⟩

/-- C10: in any reachable state where v is a current vertex and no edge between v and
itself exists, `addEdge(v, v, wall)` succeeds on both backings; afterwards
`hasEdge(v, v)` is true and `neighbours(v)` contains v exactly once; and in the
incidence-matrix backing the matrix column created for the self-loop contains exactly
one 1-cell, located at v's row. -/
theorem claim10_self_loop (ops : List Op) (v : Coordinates) (w : Bool)
    (h1 : (EdgeListGraph.applyOps EdgeListGraph.init ops).hasVertex v = true)
    (h2 : (EdgeListGraph.applyOps EdgeListGraph.init ops).hasEdge v v = false) :
    ((EdgeListGraph.applyOps EdgeListGraph.init ops).addEdge v v w).2 = true ∧
    ((EdgeListGraph.applyOps EdgeListGraph.init ops).addEdge v v w).1.hasEdge v v =
      true ∧
    (((EdgeListGraph.applyOps EdgeListGraph.init ops).addEdge
      v v w).1.neighbours v).count v = 1 ∧
    ((IncMatGraph.applyOps IncMatGraph.init ops).addEdge v v w).2 = true ∧
    ((IncMatGraph.applyOps IncMatGraph.init ops).addEdge v v w).1.hasEdge v v = true ∧
    (((IncMatGraph.applyOps IncMatGraph.init ops).addEdge
      v v w).1.neighbours v).count v = 1 ∧
    (matColumn ((IncMatGraph.applyOps IncMatGraph.init ops).addEdge
        v v w).1.incidence_mat
      (IncMatGraph.applyOps IncMatGraph.init ops).edges.length).count 1 = 1 ∧
    (∀ r, r < ((IncMatGraph.applyOps IncMatGraph.init ops).addEdge
        v v w).1.keys.length →
      ((((IncMatGraph.applyOps IncMatGraph.init ops).addEdge
          v v w).1.incidence_mat.getD r []).getD
          (IncMatGraph.applyOps IncMatGraph.init ops).edges.length 0 = 1 ↔
        ((IncMatGraph.applyOps IncMatGraph.init ops).addEdge
          v v w).1.keys.getD r default = v)) := by
  have hc := corr_run ops
  have hwb := incWF_run ops
  have hb1 : (IncMatGraph.applyOps IncMatGraph.init ops).hasVertex v = true := by
    rw [← corr_hasVertex _ _ hc]
    exact h1
  have hbd : (IncMatGraph.applyOps IncMatGraph.init ops).hasEdge v v = false := by
    rw [← corr_hasEdge _ _ hc]
    exact h2
  obtain ⟨i1, hi1⟩ := Option.isSome_iff_exists.mp hb1
  have hokE := el_addEdge_ok _ v v w h1 h1 h2
  have hokI := im_addEdge_ok _ v v w i1 i1 hi1 hi1 hbd
  have hwb' : IncWF ((IncMatGraph.applyOps IncMatGraph.init ops).addEdge v v w).1 :=
    incWF_addEdge _ hwb v v w
  have hedges2 : ((IncMatGraph.applyOps IncMatGraph.init ops).addEdge v v w).1.edges =
      (IncMatGraph.applyOps IncMatGraph.init ops).edges ++ [(v, v, w)] := by
    rw [hokI]
  have hkeys2 : ((IncMatGraph.applyOps IncMatGraph.init ops).addEdge v v w).1.keys =
      (IncMatGraph.applyOps IncMatGraph.init ops).keys := by
    rw [hokI]
    rfl
  have hlen2 : (IncMatGraph.applyOps IncMatGraph.init ops).edges.length <
      ((IncMatGraph.applyOps IncMatGraph.init ops).addEdge v v w).1.edges.length := by
    rw [hedges2]
    simp
  have hgetnew : ((IncMatGraph.applyOps IncMatGraph.init ops).addEdge
      v v w).1.edges.getD (IncMatGraph.applyOps IncMatGraph.init ops).edges.length
      default = (v, v, w) := by
    rw [hedges2, getD_append_ge default _ _ _ (Nat.le_refl _), Nat.sub_self]
    rfl
  refine ⟨by rw [hokE], ?_, ?_, by rw [hokI], ?_, ?_, ?_, ?_⟩
  · rw [hokE]
    exact (hasEdgeList_new _ v v w).1
  · rw [hokE]
    exact count_self_loop_neighbours _ v w h2
  · rw [hokI]
    exact (hasEdgeList_new _ v v w).1
  · rw [im_neighbours_eq _ hwb' v, hedges2]
    exact count_self_loop_neighbours _ v w hbd
  · have hcount := column_count _ hwb'
      (IncMatGraph.applyOps IncMatGraph.init ops).edges.length hlen2
    rw [hgetnew] at hcount
    rw [if_pos rfl] at hcount
    exact hcount
  · intro r hr
    have hcell := hwb'.cell r hr
      (IncMatGraph.applyOps IncMatGraph.init ops).edges.length hlen2
    rw [hgetnew] at hcell
    rw [hcell, hkeys2]
    by_cases hkr : (IncMatGraph.applyOps IncMatGraph.init ops).keys.getD r default = v
    · rw [if_pos ?_]
      · exact ⟨fun _ => hkr, fun _ => rfl⟩
      · exact Or.inl hkr.symm
    · rw [if_neg ?_]
      · exact ⟨fun h0 => absurd h0 (by decide), fun hk => absurd hk hkr⟩
      · rintro (he | he) <;> exact hkr he.symm

/-- C10 witness: adding a self-loop on vertex (0,0) to a one-vertex graph — the
neighbour list contains the vertex exactly once and the new matrix column has exactly
one 1-cell. -/
theorem claim10_self_loop_witness :
    ((EdgeListGraph.applyOps EdgeListGraph.init [Op.addVertex cA]).hasVertex cA =
      true ∧
     (EdgeListGraph.applyOps EdgeListGraph.init [Op.addVertex cA]).hasEdge cA cA =
      false) ∧
    (((EdgeListGraph.applyOps EdgeListGraph.init [Op.addVertex cA]).addEdge cA cA
        true).1.neighbours cA).count cA = 1 ∧
    (matColumn ((IncMatGraph.applyOps IncMatGraph.init [Op.addVertex cA]).addEdge cA cA
        true).1.incidence_mat
      (IncMatGraph.applyOps IncMatGraph.init
        [Op.addVertex cA]).edges.length).count 1 = 1 :=
  ⟨⟨by decide, by decide⟩,
   (claim10_self_loop [Op.addVertex cA] cA true (by decide) (by decide)).2.2.1,
   (claim10_self_loop [Op.addVertex cA] cA true
     (by decide) (by decide)).2.2.2.2.2.2.1⟩
